import Mathlib

/-!
Verification of the JSON-extraction-and-repair subsystem of the
`hidevs_git_analyzer` repository (`src/utils.py`), together with the
validator branching and the report-enhancement helper.

Strings are modelled as `List Char`.  Python's parsed JSON documents
(`json.loads` results) are modelled by the inductive type `Json` below;
numbers are modelled as integers (float literals are outside the model,
none of the verified properties involve them).
-/

/-- JSON whitespace as accepted by Python's `json.loads` (space, tab,
newline, carriage return). -/
def isJsonWs (c : Char) : Bool :=
  c = ' ' || c = '\t' || c = '\n' || c = '\r'

/-- ASCII whitespace as stripped by Python's `str.strip`/`str.rstrip` and
matched by the regex class `\s` (space, tab, newline, carriage return,
vertical tab, form feed). -/
def isPyWs (c : Char) : Bool :=
  c = ' ' || c = '\t' || c = '\n' || c = '\r' || c = '\x0b' || c = '\x0c'

def isDigitChar (c : Char) : Bool :=
  '0' ≤ c && c ≤ '9'

/-- Model of a parsed JSON document (the result of Python's `json.loads`):
`None`, booleans, integers, strings, lists and dicts (as ordered
key/value lists). -/
inductive Json where
  | null
  | bool (b : Bool)
  | int (n : Int)
  | str (s : List Char)
  | arr (xs : List Json)
  | obj (kvs : List (List Char × Json))

/-- Decimal digit character for a value `d < 10`. -/
def digitChar : Nat → Char
  | 0 => '0' | 1 => '1' | 2 => '2' | 3 => '3' | 4 => '4'
  | 5 => '5' | 6 => '6' | 7 => '7' | 8 => '8' | _ => '9'

def natToDecAux : Nat → Nat → List Char
  | 0, _ => []
  | f + 1, n => if n < 10 then [digitChar n] else natToDecAux f (n / 10) ++ [digitChar (n % 10)]

/-- Decimal representation of a natural number, as printed by Python. -/
def natToDec (n : Nat) : List Char := natToDecAux (n + 1) n

/-- Decimal representation of an integer, as printed by Python's
`json.dumps` for `int` values. -/
def intToDec (n : Int) : List Char :=
  if n < 0 then '-' :: natToDec n.natAbs else natToDec n.toNat

/-- Lower-case hex digit for a value `d < 16`. -/
def hexDig : Nat → Char
  | 0 => '0' | 1 => '1' | 2 => '2' | 3 => '3' | 4 => '4'
  | 5 => '5' | 6 => '6' | 7 => '7' | 8 => '8' | 9 => '9'
  | 10 => 'a' | 11 => 'b' | 12 => 'c' | 13 => 'd' | 14 => 'e' | _ => 'f'

/-- Serialization of one string character, following `json.dumps`:
quote and backslash are escaped, control characters use the short
escapes `\n`, `\t`, `\r`, `\b`, `\f` or a `\u00XX` escape, all other
characters are emitted literally. -/
def escCharSer (c : Char) : List Char :=
  if c = '"' then ['\\', '"']
  else if c = '\\' then ['\\', '\\']
  else if c = '\n' then ['\\', 'n']
  else if c = '\t' then ['\\', 't']
  else if c = '\r' then ['\\', 'r']
  else if c = '\x08' then ['\\', 'b']
  else if c = '\x0c' then ['\\', 'f']
  else if c.toNat < 0x20 then
    ['\\', 'u', '0', '0', hexDig (c.toNat / 16), hexDig (c.toNat % 16)]
  else [c]

/-- Serialization of JSON string contents. -/
def escapeStr : List Char → List Char
  | [] => []
  | c :: cs => escCharSer c ++ escapeStr cs

mutual

/-- Model of Python's `json.dumps` with default separators
(`", "` between items, `": "` after keys). -/
def serJson : Json → List Char
  | .null => 'n' :: ['u', 'l', 'l']
  | .bool true => 't' :: ['r', 'u', 'e']
  | .bool false => 'f' :: ['a', 'l', 's', 'e']
  | .int n => intToDec n
  | .str s => '"' :: escapeStr s ++ ['"']
  | .arr [] => ['[', ']']
  | .arr (x :: xs) => '[' :: (serJson x ++ serArrTail xs) ++ [']']
  | .obj [] => ['\x7b', '\x7d']
  | .obj ((k, v) :: kvs) =>
      '\x7b' :: (('"' :: escapeStr k ++ ['"', ':', ' ']) ++ serJson v ++ serObjTail kvs) ++ ['\x7d']

def serArrTail : List Json → List Char
  | [] => []
  | x :: xs => ',' :: ' ' :: (serJson x ++ serArrTail xs)

def serObjTail : List (List Char × Json) → List Char
  | [] => []
  | (k, v) :: kvs => ',' :: ' ' :: (('"' :: escapeStr k ++ ['"', ':', ' ']) ++ serJson v ++ serObjTail kvs)

end

mutual

/-- Size measure used as parser fuel bound. -/
def jsize : Json → Nat
  | .null | .bool _ | .int _ | .str _ => 1
  | .arr xs => 1 + jsizeArr xs
  | .obj kvs => 1 + jsizeObj kvs

def jsizeArr : List Json → Nat
  | [] => 0
  | x :: xs => 1 + jsize x + jsizeArr xs

def jsizeObj : List (List Char × Json) → Nat
  | [] => 0
  | (_, v) :: kvs => 1 + jsize v + jsizeObj kvs

end

/-- Numeric value of a hex digit character (upper or lower case), as
accepted in `\uXXXX` escapes by `json.loads`. -/
def hexVal (c : Char) : Option Nat :=
  if '0' ≤ c && c ≤ '9' then some (c.toNat - 48)
  else if 'a' ≤ c && c ≤ 'f' then some (c.toNat - 87)
  else if 'A' ≤ c && c ≤ 'F' then some (c.toNat - 55)
  else none

/-- Single-character string escapes accepted by `json.loads`. -/
def escCharParse (c : Char) : Option Char :=
  if c = '"' then some '"'
  else if c = '\\' then some '\\'
  else if c = '/' then some '/'
  else if c = 'b' then some '\x08'
  else if c = 'f' then some '\x0c'
  else if c = 'n' then some '\n'
  else if c = 'r' then some '\r'
  else if c = 't' then some '\t'
  else none

/-- Parser for the body of a JSON string literal (after the opening
quote), in the strict mode used by `json.loads`: raw control characters
are rejected, escapes are decoded.  `\uXXXX` escapes denoting UTF-16
surrogates are outside the model (no claim involves them). -/
def parseStringBody : List Char → Option (List Char × List Char)
  | [] => none
  | c :: rest =>
    if c = '"' then some ([], rest)
    else if c = '\\' then
      match rest with
      | [] => none
      | e :: rest2 =>
        if e = 'u' then
          match rest2 with
          | h1 :: h2 :: h3 :: h4 :: rest3 =>
            match hexVal h1, hexVal h2, hexVal h3, hexVal h4 with
            | some a, some b, some c2, some d =>
              let v := ((a * 16 + b) * 16 + c2) * 16 + d
              if 0xD800 ≤ v && v < 0xE000 then none
              else
                match parseStringBody rest3 with
                | some (s, r) => some (Char.ofNat v :: s, r)
                | none => none
            | _, _, _, _ => none
          | _ => none
        else
          match escCharParse e with
          | some c2 =>
            match parseStringBody rest2 with
            | some (s, r) => some (c2 :: s, r)
            | none => none
          | none => none
    else if c.toNat < 0x20 then none
    else
      match parseStringBody rest with
      | some (s, r) => some (c :: s, r)
      | none => none

/-- Numeric value of a list of decimal digit characters. -/
def digitsToNat (ds : List Char) : Nat :=
  ds.foldl (fun a c => 10 * a + (c.toNat - 48)) 0

/-- Parser for a JSON natural-number literal: a nonempty digit run with
no leading zero, not followed by `.`, `e` or `E` (float literals are
outside the model). -/
def parseNatNum (s : List Char) : Option (Nat × List Char) :=
  let ds := s.takeWhile isDigitChar
  let rest := s.dropWhile isDigitChar
  match ds with
  | [] => none
  | [d] =>
    match rest with
    | c :: _ => if c = '.' || c = 'e' || c = 'E' then none else some (d.toNat - 48, rest)
    | [] => some (d.toNat - 48, rest)
  | d :: _ :: _ =>
    if d = '0' then none
    else
      match rest with
      | c :: _ => if c = '.' || c = 'e' || c = 'E' then none else some (digitsToNat ds, rest)
      | [] => some (digitsToNat ds, rest)

/-- Parser for a JSON integer literal with optional sign. -/
def parseIntNum (s : List Char) : Option (Int × List Char) :=
  match s with
  | [] => none
  | c :: rest =>
    if c = '-' then
      match parseNatNum rest with
      | some (n, r) => some (-(n : Int), r)
      | none => none
    else
      match parseNatNum (c :: rest) with
      | some (n, r) => some ((n : Int), r)
      | none => none

/-- Skip JSON whitespace. -/
def skipWs : List Char → List Char
  | [] => []
  | c :: cs => if isJsonWs c then skipWs cs else c :: cs

/-- Parse the comma-separated items of a nonempty JSON array, positioned
at the first item; consumes the closing `]`.  `pv` parses one value. -/
def parseArrItems (pv : List Char → Option (Json × List Char)) :
    Nat → List Char → Option (List Json × List Char)
  | 0, _ => none
  | g + 1, s =>
    match pv s with
    | none => none
    | some (v, s1) =>
      match skipWs s1 with
      | [] => none
      | c :: s2 =>
        if c = ',' then
          match parseArrItems pv g (skipWs s2) with
          | some (vs, s3) => some (v :: vs, s3)
          | none => none
        else if c = ']' then some ([v], s2)
        else none

/-- Parse the comma-separated members of a nonempty JSON object,
positioned at the first key; consumes the closing brace. -/
def parseObjItems (pv : List Char → Option (Json × List Char)) :
    Nat → List Char → Option (List (List Char × Json) × List Char)
  | 0, _ => none
  | g + 1, s =>
    match s with
    | [] => none
    | c0 :: s0 =>
      if c0 = '"' then
        match parseStringBody s0 with
        | none => none
        | some (k, s1) =>
          match skipWs s1 with
          | [] => none
          | c1 :: s2 =>
            if c1 = ':' then
              match pv (skipWs s2) with
              | none => none
              | some (v, s3) =>
                match skipWs s3 with
                | [] => none
                | c2 :: s4 =>
                  if c2 = ',' then
                    match parseObjItems pv g (skipWs s4) with
                    | some (kvs, s5) => some ((k, v) :: kvs, s5)
                    | none => none
                  else if c2 = '\x7d' then some ([(k, v)], s4)
                  else none
            else none
      else none

/-- Consume an expected literal character sequence. -/
def expectLit : List Char → List Char → Option (List Char)
  | [], s => some s
  | _ :: _, [] => none
  | p :: ps, c :: cs => if c = p then expectLit ps cs else none

/-- Fuel-indexed parser for one JSON value, modelling the grammar
accepted by Python's `json.loads` (restricted to the `Json` model:
integers only, no `NaN`/`Infinity`). -/
def parseValue : Nat → List Char → Option (Json × List Char)
  | 0, _ => none
  | fuel + 1, s =>
    match s with
    | [] => none
    | c :: rest =>
      if c = '"' then
        match parseStringBody rest with
        | some (cs, r) => some (.str cs, r)
        | none => none
      else if c = '\x7b' then
        match skipWs rest with
        | [] => none
        | c1 :: r2 =>
          if c1 = '\x7d' then some (.obj [], r2)
          else
            match parseObjItems (parseValue fuel) fuel (c1 :: r2) with
            | some (kvs, r3) => some (.obj kvs, r3)
            | none => none
      else if c = '[' then
        match skipWs rest with
        | [] => none
        | c1 :: r2 =>
          if c1 = ']' then some (.arr [], r2)
          else
            match parseArrItems (parseValue fuel) fuel (c1 :: r2) with
            | some (xs, r3) => some (.arr xs, r3)
            | none => none
      else if c = 'n' then
        match expectLit ['u', 'l', 'l'] rest with
        | some r => some (.null, r)
        | none => none
      else if c = 't' then
        match expectLit ['r', 'u', 'e'] rest with
        | some r => some (.bool true, r)
        | none => none
      else if c = 'f' then
        match expectLit ['a', 'l', 's', 'e'] rest with
        | some r => some (.bool false, r)
        | none => none
      else if c = '-' || isDigitChar c then
        match parseIntNum (c :: rest) with
        | some (n, r) => some (.int n, r)
        | none => none
      else none

/-- Model of Python's `json.loads` on the `Json` domain: skip leading
whitespace, parse one value, require only whitespace to remain. -/
def jsonParse (s : List Char) : Option Json :=
  match parseValue (s.length + 1) (skipWs s) with
  | some (v, rest) => if skipWs rest = [] then some v else none
  | none => none

/-! ## String-searching and trimming primitives (Python `str` methods) -/

/-- `startsWithL pat s`: does `s` start with `pat`? -/
def startsWithL : List Char → List Char → Bool
  | [], _ => true
  | _ :: _, [] => false
  | p :: ps, c :: cs => p = c && startsWithL ps cs

/-- Index of the first occurrence of a character (Python `str.find`). -/
def findCharIdx (c : Char) : List Char → Option Nat
  | [] => none
  | x :: xs => if x = c then some 0 else (findCharIdx c xs).map (· + 1)

/-- Index of the last occurrence of a character (Python `str.rfind`). -/
def rfindCharIdx (c : Char) : List Char → Option Nat
  | [] => none
  | x :: xs =>
    match rfindCharIdx c xs with
    | some i => some (i + 1)
    | none => if x = c then some 0 else none

/-- Index of the first occurrence of a substring (Python `str.find`). -/
def findSubIdx (pat : List Char) : List Char → Option Nat
  | [] => if pat = [] then some 0 else none
  | c :: cs => if startsWithL pat (c :: cs) then some 0 else (findSubIdx pat cs).map (· + 1)

/-- Index of the last occurrence of a substring (Python `str.rfind`). -/
def rfindSubIdx (pat : List Char) : List Char → Option Nat
  | [] => if pat = [] then some 0 else none
  | c :: cs =>
    match rfindSubIdx pat cs with
    | some i => some (i + 1)
    | none => if startsWithL pat (c :: cs) then some 0 else none

/-- Python slice `s[a:b]`. -/
def sliceL (s : List Char) (a b : Nat) : List Char := (s.drop a).take (b - a)

def trimLeftWs (s : List Char) : List Char := s.dropWhile isPyWs

/-- Python `str.rstrip()`. -/
def trimRightWs (s : List Char) : List Char := (s.reverse.dropWhile isPyWs).reverse

/-- Python `str.strip()`. -/
def stripWs (s : List Char) : List Char := trimRightWs (trimLeftWs s)

/-! ## Models of the regex substitution passes of `fix_malformed_json`

Each pass models one `re.sub(pattern, repl, text)` call: the string is
scanned left to right, at each position the pattern is tried (with
Python's leftmost, lazy/greedy backtracking semantics, hand-expanded for
the concrete pattern), a match is replaced and scanning resumes after
the matched span.  A matcher receives the character preceding the
current position in the original string (for lookbehinds) and returns
the matched length (always positive) and the replacement text. -/

/-- Generic `re.sub` driver: `f` maps (previous original character,
remaining input) to an optional (matched length, replacement). -/
def subScan (f : Option Char → List Char → Option (Nat × List Char)) :
    Nat → Option Char → List Char → List Char
  | 0, _, s => s
  | _ + 1, _, [] => []
  | fuel + 1, prev, c :: cs =>
    match f prev (c :: cs) with
    | some (len, rep) =>
      rep ++ subScan f fuel ((c :: cs).take len).getLast? ((c :: cs).drop len)
    | none => c :: subScan f fuel (some c) cs

def runSub (f : Option Char → List Char → Option (Nat × List Char)) (s : List Char) : List Char :=
  subScan f s.length none s

/-- Matcher for `re.sub(r'```json\s*', '', fixed)`. -/
def tryFenceOpen (_ : Option Char) (s : List Char) : Option (Nat × List Char) :=
  match s with
  | '`' :: '`' :: '`' :: 'j' :: 's' :: 'o' :: 'n' :: rest =>
    some (7 + (rest.takeWhile isPyWs).length, [])
  | _ => none

/-- Matcher for `re.sub(r'\s*```', '', fixed)`: a greedy whitespace run
must be followed directly by three backticks (backtracking into the run
cannot help since a backtick is not whitespace). -/
def tryFenceClose (_ : Option Char) (s : List Char) : Option (Nat × List Char) :=
  let k := (s.takeWhile isPyWs).length
  match s.drop k with
  | '`' :: '`' :: '`' :: _ => some (k + 3, [])
  | _ => none

def isIdStart (c : Char) : Bool :=
  ('a' ≤ c && c ≤ 'z') || ('A' ≤ c && c ≤ 'Z') || c = '_'

def isIdChar (c : Char) : Bool := isIdStart c || isDigitChar c

/-- Matcher for `re.sub(r'([{,]\s*)([a-zA-Z_][a-zA-Z0-9_]*?)(\s*:)', r'\1"\2"\3', fixed)`
(quote unquoted object keys).  The lazy identifier group can only stop
growing at the first non-identifier character (an identifier character
can never satisfy the following `\s*:`), so it equals the maximal
identifier run. -/
def tryQuoteKeys (_ : Option Char) (s : List Char) : Option (Nat × List Char) :=
  match s with
  | c0 :: rest =>
    if c0 = '\x7b' || c0 = ',' then
      let ws1 := rest.takeWhile isPyWs
      match rest.drop ws1.length with
      | d0 :: r2 =>
        if isIdStart d0 then
          let run := r2.takeWhile isIdChar
          let r3 := r2.drop run.length
          let ws2 := r3.takeWhile isPyWs
          match r3.drop ws2.length with
          | ':' :: _ =>
            some (1 + ws1.length + 1 + run.length + ws2.length + 1,
              c0 :: ws1 ++ '"' :: d0 :: run ++ '"' :: ws2 ++ [':'])
          | _ => none
        else none
      | [] => none
    else none
  | [] => none

/-- Matcher for `re.sub(r',(\s*[}\]])', r'\1', fixed)` (remove trailing
commas). -/
def tryTrailingComma (_ : Option Char) (s : List Char) : Option (Nat × List Char) :=
  match s with
  | ',' :: rest =>
    let ws := rest.takeWhile isPyWs
    match rest.drop ws.length with
    | c :: _ =>
      if c = '\x7d' || c = ']' then some (1 + ws.length + 1, ws ++ [c]) else none
    | [] => none
  | _ => none

/-- Matcher for `re.sub(r'([\]"}])\s*([\[{"])', r'\1,\2', fixed)` (insert
missing commas).  The whitespace between the two structural tokens is not
captured, so the replacement drops it. -/
def tryMissingComma (_ : Option Char) (s : List Char) : Option (Nat × List Char) :=
  match s with
  | c0 :: rest =>
    if c0 = ']' || c0 = '"' || c0 = '\x7d' then
      let ws := rest.takeWhile isPyWs
      match rest.drop ws.length with
      | c1 :: _ =>
        if c1 = '[' || c1 = '\x7b' || c1 = '"' then
          some (1 + ws.length + 1, [c0, ',', c1])
        else none
      | [] => none
    else none
  | [] => none

def isBareValChar (c : Char) : Bool := isIdChar c || isPyWs c || c = '-'

/-- Matcher for
`re.sub(r':\s*([a-zA-Z_][a-zA-Z0-9_\s-]*?)([,}\]])', r':"\1"\2', fixed)`
(quote bare-word values).  The lazy group ranges over characters disjoint
from the terminator class, so it equals the maximal run; the whitespace
after the colon is not captured and is dropped by the replacement. -/
def tryQuoteBareVal (_ : Option Char) (s : List Char) : Option (Nat × List Char) :=
  match s with
  | ':' :: rest =>
    let ws := rest.takeWhile isPyWs
    match rest.drop ws.length with
    | d0 :: r2 =>
      if isIdStart d0 then
        let run := r2.takeWhile isBareValChar
        match r2.drop run.length with
        | c2 :: _ =>
          if c2 = ',' || c2 = '\x7d' || c2 = ']' then
            some (1 + ws.length + 1 + run.length + 1, ':' :: '"' :: d0 :: run ++ ['"', c2])
          else none
        | [] => none
      else none
    | [] => none
  | _ => none

/-- Matcher for
`re.sub(r'(?<!\\)"([^"]*?)(?<!\\)":\s*"([^"]*[^\\])"([^"]*)"', r'"\1":"\2\\"\\3"', fixed)`
(the "fix escaped quotes" pass).  In the replacement template `\\"` and
`\\3` denote a literal backslash followed by a literal `"` resp. a
literal `3` (the group-3 reference is escaped away), so the replacement
is `"g1":"g2\"\3"`.  The greedy `[^"]*[^\\]` group is resolved in two
backtracking branches: first `g2` = run-plus-closing-quote (when a
second quote follows directly), then `g2` = run (its last character
standing in for `[^\\]`). -/
def tryEscQuotes (prev : Option Char) (s : List Char) : Option (Nat × List Char) :=
  match s with
  | '"' :: r0 =>
    if prev = some '\\' then none
    else
      let g1 := r0.takeWhile (fun c => c ≠ '"')
      match r0.drop g1.length with
      | '"' :: r1 =>
        if g1.getLast? = some '\\' then none
        else
          match r1 with
          | ':' :: r2 =>
            let ws := r2.takeWhile isPyWs
            match r2.drop ws.length with
            | '"' :: r3 =>
              let u := r3.takeWhile (fun c => c ≠ '"')
              let base := 1 + g1.length + 1 + 1 + ws.length + 1 + u.length + 1
              let repPre := '"' :: g1 ++ ['"', ':', '"']
              match r3.drop u.length with
              | '"' :: r4 =>
                let tryB : Option (Nat × List Char) :=
                  if u ≠ [] && u.getLast? ≠ some '\\' then
                    let w2 := r4.takeWhile (fun c => c ≠ '"')
                    match r4.drop w2.length with
                    | '"' :: _ =>
                      some (base + w2.length + 1,
                        repPre ++ u ++ ['\\', '"', '\\', '3', '"'])
                    | _ => none
                  else none
                match r4 with
                | '"' :: r5 =>
                  let w := r5.takeWhile (fun c => c ≠ '"')
                  match r5.drop w.length with
                  | '"' :: _ =>
                    some (base + 1 + w.length + 1,
                      repPre ++ u ++ ['"', '\\', '"', '\\', '3', '"'])
                  | _ => tryB
                | _ => tryB
              | _ => none
            | _ => none
          | _ => none
      | _ => none
  | _ => none

/-- Model of the final brace-trimming step of `fix_malformed_json`:
keep the span from the first `{` to the last `}` when both exist
(`start_idx != -1 and end_idx != 0` in the source). -/
def passBraceTrim (s : List Char) : List Char :=
  match findCharIdx '\x7b' s, rfindCharIdx '\x7d' s with
  | some a, some b => sliceL s a (b + 1)
  | _, _ => s

/-- Error message raised when the repaired text still fails to parse.
The source interpolates a ±50-character context window around the parser
error position and the parser error text; the window contents are
abstracted here (no verified property depends on them). -/
def fixErrMsg (fixedStr : List Char) : List Char :=
  "Could not fix malformed JSON near: ...".data ++ fixedStr ++ "...".data

/-- The seven textual repair passes of `fix_malformed_json` (lines
330-356), applied in source order: strip fence openers, strip fence
closers, quote unquoted keys, drop trailing commas, insert missing
commas, quote bare-word values, rewrite escaped-quote patterns, trim to
the outermost braces. -/
def repairedText (json_str : List Char) : List Char :=
  passBraceTrim (runSub tryEscQuotes (runSub tryQuoteBareVal (runSub tryMissingComma
    (runSub tryTrailingComma (runSub tryQuoteKeys (runSub tryFenceClose
      (runSub tryFenceOpen json_str)))))))

/-- Model of `fix_malformed_json` (src/utils.py lines 320-365): return
the input unchanged if it already parses; otherwise apply the seven
textual repair passes in order and parse-check the result, returning it
on success and raising `ValueError` (modelled as `.error`) otherwise. -/
def fix_malformed_json (json_str : List Char) : Except (List Char) (List Char) :=
  match jsonParse json_str with
  | some _ => .ok json_str
  | none =>
    match jsonParse (repairedText json_str) with
    | some _ => .ok (repairedText json_str)
    | none => .error (fixErrMsg (repairedText json_str))

/-! ## Model of `extract_json_from_llm_response` (src/utils.py lines 274-318) -/

def fenceOpenPat : List Char := "```json".data

def fencePat : List Char := "```".data

def msgNoJson : List Char := "No JSON content found in response".data

def msgNoClose : List Char := "No closing JSON structure found".data

/-- The bounded input preview interpolated into the extraction failure
message: `response[:200] + "..." if len(response) > 200 else response`. -/
def previewOf (response : List Char) : List Char :=
  if response.length > 200 then response.take 200 ++ "...".data else response

/-- The wrapping failure message raised by the outer `except` handler of
`extract_json_from_llm_response`. -/
def outerMsg (response inner : List Char) : List Char :=
  "Failed to extract valid JSON from response: ".data ++ inner ++
    "\nResponse preview: ".data ++ previewOf response

/-- The brace-based fallback for the window end: the last `}` of the
(rstripped) response, included in the window. -/
def braceEnd (response : List Char) (cs : Nat) : Except (List Char) (List Char) :=
  match rfindCharIdx '\x7d' (trimRightWs response) with
  | some e => .ok (stripWs (sliceL response cs (e + 1)))
  | none => .error msgNoClose

/-- Window-end selection given the content start `cs`. -/
def selectEnd (response : List Char) (cs : Nat) : Except (List Char) (List Char) :=
  match rfindSubIdx fencePat (trimRightWs response) with
  | some e => if e < cs then braceEnd response cs else .ok (stripWs (sliceL response cs e))
  | none => braceEnd response cs

/-- The content-window selection of `extract_json_from_llm_response`
(lines 286-309): window start just after the first ```` ```json ````
marker, else at the first `{`; window end at the last ```` ``` ```` of
the rstripped response when that lies at or after the start, else just
after the last `}`; the selected substring is stripped. -/
def selectJsonStr (response : List Char) : Except (List Char) (List Char) :=
  match findSubIdx fenceOpenPat response with
  | some i => selectEnd response (i + 7)
  | none =>
    match findCharIdx '\x7b' response with
    | some i => selectEnd response i
    | none => .error msgNoJson

/-- The body of `extract_json_from_llm_response` after the failed direct
parse: select the window, repair it, parse.  The final parse cannot fail
(the repairer only returns text it has parse-checked); the branch is
kept for totality. -/
def extractInner (response : List Char) : Except (List Char) Json :=
  match selectJsonStr response with
  | .error e => .error e
  | .ok js =>
    match fix_malformed_json js with
    | .error e => .error e
    | .ok fixedStr =>
      match jsonParse fixedStr with
      | some v => .ok v
      | none => .error (fixErrMsg fixedStr)

/-- Model of `extract_json_from_llm_response`: first try to parse the
whole response; otherwise select a content window, repair and parse it.
Any failure is re-raised wrapped in a message carrying a bounded preview
of the input. -/
def extract_json_from_llm_response (response : List Char) : Except (List Char) Json :=
  match jsonParse response with
  | some v => .ok v
  | none =>
    match extractInner response with
    | .ok v => .ok v
    | .error e => .error (outerMsg response e)

/-- The markdown wrapping used by the round-trip property: prose, a
```` ```json ```` fence on its own line, the serialized document, a
closing fence, prose. -/
def wrapInFence (p1 j p2 : List Char) : List Char :=
  p1 ++ "```json\n".data ++ j ++ "\n```".data ++ p2

/-! ## Model of the branching of `validate_project_alignment`
(src/utils.py lines 188-206) -/

/-- Outcome dictionary of `validate_project_alignment`: either
`{"vrejected": True, "rejection_reason": ...}` or
`{"vrejected": False, "validation_summary": ...}`. -/
inductive ValidationOutcome where
  | rejected (rejection_reason : List Char)
  | accepted (validation_summary : List Char)
deriving DecidableEq

def invalidMarker : List Char := "INVALID:".data

def validMarker : List Char := "VALID:".data

def containsSub (pat s : List Char) : Bool := (findSubIdx pat s).isSome

/-- Python `s.split(pat, 1)[1]`: the text after the first occurrence of
`pat` (callers guard on containment). -/
def afterFirst (pat s : List Char) : List Char :=
  match findSubIdx pat s with
  | some i => s.drop (i + pat.length)
  | none => []

def rejectionPre : List Char :=
  "Project rejected: The project claims don\x27t align with the codebase implementation. ".data

def noDeterminationMsg : List Char :=
  "Project rejected: The validator response did not contain a clear VALID or INVALID determination.".data

/-- Model of the branching part of `validate_project_alignment`, as a
function of the stripped LLM output `validation_result` (the LLM call
itself is an external collaborator).  The `INVALID:` containment test is
checked first, then `VALID:`, both as substring tests. -/
def validate_project_alignment (validation_result : List Char) : ValidationOutcome :=
  if containsSub invalidMarker validation_result then
    .rejected (rejectionPre ++ stripWs (afterFirst invalidMarker validation_result))
  else if containsSub validMarker validation_result then
    .accepted (stripWs (afterFirst validMarker validation_result))
  else
    .rejected noDeterminationMsg

/-! ## Model of `enhance_report_with_career_insights`
(src/utils.py lines 427-440) -/

def keyLookup (k : List Char) : List (List Char × Json) → Option Json
  | [] => none
  | (k2, v) :: kvs => if k2 = k then some v else keyLookup k kvs

/-- Python dict assignment `d[k] = v`: update in place when present
(dicts have unique keys), append otherwise. -/
def keyStore (k : List Char) (v : Json) : List (List Char × Json) → List (List Char × Json)
  | [] => [(k, v)]
  | (k2, v2) :: kvs => if k2 = k then (k2, v) :: kvs else (k2, v2) :: keyStore k v kvs

def reportKey : List Char := "report".data

def careerAnalysisKey : List Char := "career_analysis".data

def additionalInsightsKey : List Char := "additional_insights".data

def typeErrMsg : List Char := "TypeError".data

/-- Model of `enhance_report_with_career_insights`.  `report_dict` is
the input dictionary; `career_insights` is the optional insights string
(`none` models `None`, the empty string is also falsy).  Subscripting a
non-dict `report` / `career_analysis` value raises `TypeError`,
modelled as `.error`. -/
def enhance_report_with_career_insights (report_dict : List (List Char × Json))
    (career_insights : Option (List Char)) : Except (List Char) Json :=
  let falsy : Bool := match career_insights with
    | none => true
    | some s => s.isEmpty
  if falsy || (keyLookup reportKey report_dict).isNone then .ok (.obj report_dict)
  else
    match keyLookup reportKey report_dict with
    | some (.obj rkvs) =>
      let rkvs1 := if (keyLookup careerAnalysisKey rkvs).isSome then rkvs
        else rkvs ++ [(careerAnalysisKey, .obj [])]
      match keyLookup careerAnalysisKey rkvs1 with
      | some (.obj ckvs) =>
        .ok (.obj (keyStore reportKey
          (.obj (keyStore careerAnalysisKey
            (.obj (keyStore additionalInsightsKey (.str (career_insights.getD [])) ckvs))
            rkvs1))
          report_dict))
      | some _ => .error typeErrMsg
      | none => .error typeErrMsg
    | some _ => .error typeErrMsg
    | none => .error typeErrMsg

/-- The `career_analysis` sub-dictionary the source starts from: the
existing mapping when present, the freshly created empty one otherwise. -/
def caBase (rkvs : List (List Char × Json)) : List (List Char × Json) :=
  match keyLookup careerAnalysisKey rkvs with
  | some (.obj c) => c
  | _ => []

def exceptToOpt {α : Type} : Except (List Char) α → Option α
  | .ok a => some a
  | .error _ => none

/-- The window selection as described by the specification (modelled
from the claim's words, to be compared with `selectJsonStr`): start just
after ```` ```json ```` if present, else at the first `{`; end at the
closing fence marker if one occurs at or after the start, else at the
last `}` (included); the result is the trimmed substring, with a closing
marker before the window start treated as not found. -/
def selectWindowSpec (response : List Char) : Option (List Char) :=
  match
    (match findSubIdx fenceOpenPat response with
     | some i => some (i + fenceOpenPat.length)
     | none => findCharIdx '\x7b' response) with
  | none => none
  | some cs =>
    match rfindSubIdx fencePat response with
    | some e =>
      if cs ≤ e then some (stripWs (sliceL response cs e))
      else
        match rfindCharIdx '\x7d' response with
        | some e2 => some (stripWs (sliceL response cs (e2 + 1)))
        | none => none
    | none =>
      match rfindCharIdx '\x7d' response with
      | some e2 => some (stripWs (sliceL response cs (e2 + 1)))
      | none => none

def stopTok : List Char → Bool
  | [] => true
  | c :: _ => c = ',' || c = '\x7d' || c = ']'

/-! ## Basic lemmas about the searching primitives -/

theorem startsWithL_append_self (pat t : List Char) : startsWithL pat (pat ++ t) = true := by
  induction pat with
  | nil => rfl
  | cons c cs ih => simp [startsWithL, ih]

theorem startsWithL_drop_of_append (a b t : List Char) (h : startsWithL (a ++ b) t = true) :
    startsWithL b (t.drop a.length) = true := by
  induction a generalizing t with
  | nil => simpa using h
  | cons c cs ih =>
    cases t with
    | nil => simp [startsWithL] at h
    | cons x xs =>
      simp only [List.cons_append, startsWithL, Bool.and_eq_true] at h
      simpa using ih xs h.2

theorem findSubIdx_startsWith (pat s : List Char) (i : Nat) (h : findSubIdx pat s = some i) :
    startsWithL pat (s.drop i) = true := by
  induction s generalizing i with
  | nil =>
    unfold findSubIdx at h
    by_cases hp : pat = []
    · simp [hp] at h ⊢; simp [← h, startsWithL]
    · simp [hp] at h
  | cons c cs ih =>
    unfold findSubIdx at h
    by_cases hs : startsWithL pat (c :: cs) = true
    · simp [hs] at h; simpa [← h] using hs
    · simp [hs] at h
      obtain ⟨j, hj, hij⟩ := h
      subst hij
      simpa using ih j hj

theorem findSubIdx_isSome_of_startsWith (pat s : List Char) (i : Nat)
    (h : startsWithL pat (s.drop i) = true) : (findSubIdx pat s).isSome = true := by
  induction s generalizing i with
  | nil =>
    simp only [List.drop_nil] at h
    cases pat with
    | nil => simp [findSubIdx]
    | cons p ps => simp [startsWithL] at h
  | cons c cs ih =>
    by_cases hs : startsWithL pat (c :: cs) = true
    · simp [findSubIdx, hs]
    · cases i with
      | zero => simp at h; exact absurd h hs
      | succ j =>
        simp only [List.drop_succ_cons] at h
        have := ih j h
        simp only [findSubIdx, hs, if_false, Bool.false_eq_true]
        simpa using this

theorem containsSub_of_append_left (a b s : List Char) (h : containsSub (a ++ b) s = true) :
    containsSub b s = true := by
  unfold containsSub at *
  obtain ⟨i, hi⟩ := Option.isSome_iff_exists.mp h
  have h1 := findSubIdx_startsWith _ _ _ hi
  have h2 := startsWithL_drop_of_append a b _ h1
  rw [List.drop_drop] at h2
  exact findSubIdx_isSome_of_startsWith _ _ _ h2

theorem containsSub_of_startsWith (pat s : List Char) (h : startsWithL pat s = true) :
    containsSub pat s = true :=
  findSubIdx_isSome_of_startsWith pat s 0 (by simpa using h)

/-! ## Claim C1 -/

/-- C1: for every input string, `fix_malformed_json` either returns a
string that parses as valid JSON (every success is verified by a final
parse attempt) or raises an error and returns no text; and it never
raises on input that already parses as valid JSON. -/
theorem fix_malformed_json_parse_or_raise (s : List Char) :
    (∀ t, fix_malformed_json s = .ok t → (jsonParse t).isSome = true) ∧
    ((jsonParse s).isSome = true → fix_malformed_json s = .ok s) := by
  constructor
  · intro t ht
    unfold fix_malformed_json at ht
    cases hs : jsonParse s with
    | some v =>
      rw [hs] at ht
      cases ht
      simp [hs]
    | none =>
      rw [hs] at ht
      cases hf : jsonParse (repairedText s) with
      | some v =>
        rw [hf] at ht
        cases ht
        simp [hf]
      | none =>
        rw [hf] at ht
        cases ht
  · intro hs
    obtain ⟨v, hv⟩ := Option.isSome_iff_exists.mp hs
    unfold fix_malformed_json
    rw [hv]

/-- Witness for C1 at the concrete input `{}`. -/
theorem fix_malformed_json_parse_or_raise_witness :
    fix_malformed_json "\x7b\x7d".data = .ok "\x7b\x7d".data ∧
    (jsonParse "\x7b\x7d".data).isSome = true :=
  ⟨(fix_malformed_json_parse_or_raise "\x7b\x7d".data).2 (by decide), by decide⟩

/-! ## Claim C2 -/

/-- C2: for every string that already parses as valid JSON,
`fix_malformed_json` returns it byte-for-byte unchanged (the fast path
returns the input itself, no corrective pass is applied). -/
theorem fix_malformed_json_noop_on_valid (s : List Char)
    (h : (jsonParse s).isSome = true) : fix_malformed_json s = .ok s := by
  obtain ⟨v, hv⟩ := Option.isSome_iff_exists.mp h
  unfold fix_malformed_json
  rw [hv]

/-- Witness for C2 at the concrete input `{"a": 1}`. -/
theorem fix_malformed_json_noop_on_valid_witness :
    fix_malformed_json "\x7b\x22a\x22: 1\x7d".data = .ok "\x7b\x22a\x22: 1\x7d".data :=
  fix_malformed_json_noop_on_valid "\x7b\x22a\x22: 1\x7d".data (by decide)

/-! ## Claim C5

For the input `{"a":"x""b":"y"}` the missing-comma pass does insert the
comma (producing valid JSON), but the subsequent escaped-quote pass
rewrites the comma-repaired text into `{"a":"x\"\3"b":"y"}` (the
replacement template `r'"\1":"\2\\"\\3"'` emits a literal `\3`), which
no longer parses, so `fix_malformed_json` raises instead of returning
parseable text. -/

/-- C5: evaluating the repair chain at the claim's input
`{"a":"x""b":"y"}`: the first three passes leave it unchanged, the
missing-comma pass inserts the comma yielding valid JSON, the
escaped-quote pass then corrupts it, and `fix_malformed_json` raises. -/
theorem missing_comma_repair_corrupted :
    jsonParse "\x7b\x22a\x22:\x22x\x22\x22b\x22:\x22y\x22\x7d".data = none ∧
    runSub tryQuoteKeys (runSub tryFenceClose (runSub tryFenceOpen
        "\x7b\x22a\x22:\x22x\x22\x22b\x22:\x22y\x22\x7d".data)) =
      "\x7b\x22a\x22:\x22x\x22\x22b\x22:\x22y\x22\x7d".data ∧
    runSub tryMissingComma (runSub tryTrailingComma
        "\x7b\x22a\x22:\x22x\x22\x22b\x22:\x22y\x22\x7d".data) =
      "\x7b\x22a\x22:\x22x\x22,\x22b\x22:\x22y\x22\x7d".data ∧
    jsonParse "\x7b\x22a\x22:\x22x\x22,\x22b\x22:\x22y\x22\x7d".data =
      some (.obj [(['a'], .str ['x']), (['b'], .str ['y'])]) ∧
    runSub tryEscQuotes "\x7b\x22a\x22:\x22x\x22,\x22b\x22:\x22y\x22\x7d".data =
      "\x7b\x22a\x22:\x22x\x5c\x22\x5c3\x22b\x22:\x22y\x22\x7d".data ∧
    repairedText "\x7b\x22a\x22:\x22x\x22\x22b\x22:\x22y\x22\x7d".data =
      "\x7b\x22a\x22:\x22x\x5c\x22\x5c3\x22b\x22:\x22y\x22\x7d".data ∧
    fix_malformed_json "\x7b\x22a\x22:\x22x\x22\x22b\x22:\x22y\x22\x7d".data =
      .error (fixErrMsg "\x7b\x22a\x22:\x22x\x5c\x22\x5c3\x22b\x22:\x22y\x22\x7d".data) :=
  ⟨rfl, rfl, rfl, rfl, rfl, rfl, rfl⟩

/-! ## Claim C8 -/

/-- C8: for the input `{a: 1, b: "x"}`, the key-quoting pass yields
exactly `{"a": 1, "b": "x"}`, every later pass leaves that text
unchanged, and `fix_malformed_json` returns it; it parses successfully. -/
theorem unquoted_key_repair :
    runSub tryQuoteKeys (runSub tryFenceClose (runSub tryFenceOpen
        "\x7ba: 1, b: \x22x\x22\x7d".data)) = "\x7b\x22a\x22: 1, \x22b\x22: \x22x\x22\x7d".data ∧
    runSub tryTrailingComma "\x7b\x22a\x22: 1, \x22b\x22: \x22x\x22\x7d".data =
      "\x7b\x22a\x22: 1, \x22b\x22: \x22x\x22\x7d".data ∧
    runSub tryMissingComma "\x7b\x22a\x22: 1, \x22b\x22: \x22x\x22\x7d".data =
      "\x7b\x22a\x22: 1, \x22b\x22: \x22x\x22\x7d".data ∧
    runSub tryQuoteBareVal "\x7b\x22a\x22: 1, \x22b\x22: \x22x\x22\x7d".data =
      "\x7b\x22a\x22: 1, \x22b\x22: \x22x\x22\x7d".data ∧
    runSub tryEscQuotes "\x7b\x22a\x22: 1, \x22b\x22: \x22x\x22\x7d".data =
      "\x7b\x22a\x22: 1, \x22b\x22: \x22x\x22\x7d".data ∧
    passBraceTrim "\x7b\x22a\x22: 1, \x22b\x22: \x22x\x22\x7d".data =
      "\x7b\x22a\x22: 1, \x22b\x22: \x22x\x22\x7d".data ∧
    fix_malformed_json "\x7ba: 1, b: \x22x\x22\x7d".data =
      .ok "\x7b\x22a\x22: 1, \x22b\x22: \x22x\x22\x7d".data ∧
    jsonParse "\x7b\x22a\x22: 1, \x22b\x22: \x22x\x22\x7d".data =
      some (.obj [(['a'], .int 1), (['b'], .str ['x'])]) :=
  ⟨rfl, rfl, rfl, rfl, rfl, rfl, rfl, rfl⟩

/-! ## Claim C7

The source tests `"INVALID:" in validation_result` and
`"VALID:" in validation_result`: substring containment, not a prefix
check, with the `INVALID:` test first.  An output that leads with
`VALID:` but contains `INVALID:` later is therefore rejected, against
the claim's prefix-based description. -/

/-- C7 counterexample: the output `"VALID: good INVALID: nope"` leads
with the literal marker `VALID:`, yet `validate_project_alignment`
returns a rejection (built from the text after `INVALID:`), not the
acceptance carrying `"good INVALID: nope"` that a prefix-based check
would produce. -/
theorem validate_prefix_claim_counterexample :
    startsWithL validMarker "VALID: good INVALID: nope".data = true ∧
    validate_project_alignment "VALID: good INVALID: nope".data =
      .rejected (rejectionPre ++ "nope".data) ∧
    validate_project_alignment "VALID: good INVALID: nope".data ≠
      .accepted "good INVALID: nope".data :=
  ⟨rfl, rfl, by decide⟩

/-- C7 (amended): the validate stage scans the output for the two
literal markers as substrings, `INVALID:` first: if the output contains
`INVALID:` anywhere it returns a rejection carrying the text after the
first occurrence; otherwise, if it contains `VALID:`, it returns an
acceptance carrying the text after the first occurrence; otherwise it
returns a fixed rejection.  In particular an output that leads with
`INVALID:` is rejected with the text after that marker, as the claim
states for the rejection case. -/
theorem validate_substring_marker_branching (s : List Char) :
    (containsSub invalidMarker s = true →
      validate_project_alignment s =
        .rejected (rejectionPre ++ stripWs (afterFirst invalidMarker s))) ∧
    (containsSub invalidMarker s = false → containsSub validMarker s = true →
      validate_project_alignment s = .accepted (stripWs (afterFirst validMarker s))) ∧
    (containsSub invalidMarker s = false → containsSub validMarker s = false →
      validate_project_alignment s = .rejected noDeterminationMsg) ∧
    (startsWithL invalidMarker s = true →
      validate_project_alignment s =
        .rejected (rejectionPre ++ stripWs (afterFirst invalidMarker s))) := by
    refine ⟨?_, ?_, ?_, ?_⟩
    · intro h; simp [validate_project_alignment, h]
    · intro h1 h2; simp [validate_project_alignment, h1, h2]
    · intro h1 h2; simp [validate_project_alignment, h1, h2]
    · intro h
      have hc := containsSub_of_startsWith _ _ h
      simp [validate_project_alignment, hc]

/-- Witness for C7's amended theorem at concrete outputs. -/
theorem validate_substring_marker_branching_witness :
    validate_project_alignment "so INVALID: mismatch".data =
      .rejected (rejectionPre ++ stripWs (afterFirst invalidMarker "so INVALID: mismatch".data)) ∧
    validate_project_alignment "VALID: fine".data =
      .accepted (stripWs (afterFirst validMarker "VALID: fine".data)) ∧
    validate_project_alignment "unclear".data = .rejected noDeterminationMsg :=
  ⟨(validate_substring_marker_branching "so INVALID: mismatch".data).1 (by decide),
   (validate_substring_marker_branching "VALID: fine".data).2.1 (by decide) (by decide),
   (validate_substring_marker_branching "unclear".data).2.2.1 (by decide) (by decide)⟩

/-! ## Claim C9 -/

/-- C9: every output containing `INVALID:` is rejected (the `INVALID:`
branch is checked first and takes precedence); every such output also
contains `VALID:` as a substring of `INVALID:`; acceptance happens
exactly for outputs containing `VALID:` but not `INVALID:`; and an
output containing neither marker is rejected. -/
theorem validate_invalid_precedence (s : List Char) :
    (containsSub invalidMarker s = true →
      validate_project_alignment s =
        .rejected (rejectionPre ++ stripWs (afterFirst invalidMarker s))) ∧
    (containsSub invalidMarker s = true → containsSub validMarker s = true) ∧
    ((∃ m, validate_project_alignment s = .accepted m) ↔
      containsSub validMarker s = true ∧ containsSub invalidMarker s = false) ∧
    (containsSub validMarker s = false → containsSub invalidMarker s = false ∧
      validate_project_alignment s = .rejected noDeterminationMsg) := by
  have hIV : containsSub invalidMarker s = true → containsSub validMarker s = true := by
    intro h
    exact containsSub_of_append_left "IN".data validMarker s h
  refine ⟨?_, hIV, ?_, ?_⟩
  · intro h; simp [validate_project_alignment, h]
  · constructor
    · rintro ⟨m, hm⟩
      cases hI : containsSub invalidMarker s with
      | true => simp [validate_project_alignment, hI] at hm
      | false =>
        cases hV : containsSub validMarker s with
        | true => exact ⟨rfl, rfl⟩
        | false => simp [validate_project_alignment, hI, hV] at hm
    · rintro ⟨hV, hI⟩
      exact ⟨stripWs (afterFirst validMarker s),
        by simp [validate_project_alignment, hI, hV]⟩
  · intro hV
    have hI : containsSub invalidMarker s = false := by
      cases hI : containsSub invalidMarker s with
      | true => rw [hIV hI] at hV; exact absurd hV (by simp)
      | false => rfl
    exact ⟨hI, by simp [validate_project_alignment, hI, hV]⟩

/-- Witness for C9 at concrete outputs containing `INVALID:`. -/
theorem validate_invalid_precedence_witness :
    validate_project_alignment "INVALID: off-topic".data =
      .rejected (rejectionPre ++ stripWs (afterFirst invalidMarker "INVALID: off-topic".data)) ∧
    containsSub validMarker "INVALID: off-topic".data = true ∧
    ((∃ m, validate_project_alignment "claims VALID: ok".data = .accepted m) ↔
      containsSub validMarker "claims VALID: ok".data = true ∧
        containsSub invalidMarker "claims VALID: ok".data = false) :=
  ⟨(validate_invalid_precedence "INVALID: off-topic".data).1 (by decide),
   (validate_invalid_precedence "INVALID: off-topic".data).2.1 (by decide),
   (validate_invalid_precedence "claims VALID: ok".data).2.2.1⟩

/-! ## Claim C6

The claim misses the fast path (and the fenced path): an input with no
brace at all can still be parsed directly (e.g. `42`) or extracted
through a ```` ```json ```` fence, in which case no error is raised. -/

/-- C6 counterexample: the input `42` contains no `{` and no `}`, yet
`extract_json_from_llm_response` succeeds (the whole input parses), so
no error is raised. -/
theorem extract_no_brace_counterexample :
    findCharIdx '\x7b' "42".data = none ∧
    findCharIdx '\x7d' "42".data = none ∧
    extract_json_from_llm_response "42".data = .ok (.int 42) :=
  ⟨rfl, rfl, rfl⟩

/-- C6 (amended): for every input that does not parse directly as JSON,
contains no ```` ```json ```` marker and contains no `{` and no `}`,
`extract_json_from_llm_response` raises: it returns the wrapped
"no JSON content found" error, whose message includes a preview of the
input of at most 200 characters. -/
theorem extract_no_brace_raises (s : List Char)
    (hp : jsonParse s = none)
    (hf : findSubIdx fenceOpenPat s = none)
    (hb : findCharIdx '\x7b' s = none)
    (_hc : findCharIdx '\x7d' s = none) :
    extract_json_from_llm_response s = .error (outerMsg s msgNoJson) ∧
    (s.take 200) <:+: outerMsg s msgNoJson ∧
    (s.take 200).length ≤ 200 := by
  refine ⟨?_, ?_, by simp⟩
  · unfold extract_json_from_llm_response extractInner selectJsonStr
    rw [hp, hf, hb]
  · unfold outerMsg previewOf
    by_cases hlen : s.length > 200
    · rw [if_pos hlen]
      exact ⟨"Failed to extract valid JSON from response: ".data ++ msgNoJson ++
        "\nResponse preview: ".data, "...".data, by simp⟩
    · rw [if_neg hlen]
      have : s.take 200 = s := List.take_of_length_le (by omega)
      rw [this]
      exact ⟨"Failed to extract valid JSON from response: ".data ++ msgNoJson ++
        "\nResponse preview: ".data, [], by simp⟩

/-- Witness for C6's amended theorem at a concrete brace-free input. -/
theorem extract_no_brace_raises_witness :
    extract_json_from_llm_response "plain prose only".data =
      .error (outerMsg "plain prose only".data msgNoJson) ∧
    ("plain prose only".data.take 200) <:+: outerMsg "plain prose only".data msgNoJson :=
  ⟨(extract_no_brace_raises "plain prose only".data rfl rfl rfl rfl).1,
   (extract_no_brace_raises "plain prose only".data rfl rfl rfl rfl).2.1⟩

/-! ## Dictionary lemmas for Claim C10 -/

theorem keyLookup_keyStore_self (k : List Char) (v : Json) (l : List (List Char × Json)) :
    keyLookup k (keyStore k v l) = some v := by
  induction l with
  | nil => simp [keyStore, keyLookup]
  | cons kv t ih =>
    obtain ⟨k2, v2⟩ := kv
    by_cases h : k2 = k
    · simp [keyStore, keyLookup, h]
    · simp [keyStore, keyLookup, h, ih]

theorem keyLookup_keyStore_other (k k2 : List Char) (v : Json) (l : List (List Char × Json))
    (h : k2 ≠ k) : keyLookup k2 (keyStore k v l) = keyLookup k2 l := by
  induction l with
  | nil =>
    have hne : ¬(k = k2) := fun hh => h hh.symm
    simp [keyStore, keyLookup, hne]
  | cons kv t ih =>
    obtain ⟨k3, v3⟩ := kv
    unfold keyStore
    by_cases h3 : k3 = k
    · rw [if_pos h3]
      have hne : ¬(k3 = k2) := fun hh => h (by rw [← hh, h3])
      unfold keyLookup
      rw [if_neg hne, if_neg hne]
    · rw [if_neg h3]
      unfold keyLookup
      by_cases h2 : k3 = k2
      · rw [if_pos h2, if_pos h2]
      · rw [if_neg h2, if_neg h2]
        exact ih

theorem keyLookup_append (k : List Char) (a b : List (List Char × Json)) :
    keyLookup k (a ++ b) =
      match keyLookup k a with
      | some v => some v
      | none => keyLookup k b := by
  induction a with
  | nil => simp [keyLookup]
  | cons kv t ih =>
    obtain ⟨k2, v2⟩ := kv
    by_cases h : k2 = k <;> simp [keyLookup, h, ih]

/-! ## Claim C10

The claim's "otherwise" branch assumes the write always succeeds, but
when `report_dict["report"]` is not a mapping (or its `career_analysis`
value is not a mapping) the subscripting raises `TypeError`. -/

/-- C10 counterexample: a report dictionary whose `"report"` value is a
string (so the `"report"` key is present) and a nonempty insights string
make `enhance_report_with_career_insights` raise `TypeError` instead of
writing the insights and returning the dictionary. -/
theorem enhance_nonmapping_report_raises :
    (keyLookup reportKey [(reportKey, Json.str "oops".data)]).isSome = true ∧
    enhance_report_with_career_insights [(reportKey, Json.str "oops".data)]
      (some "hi".data) = .error typeErrMsg :=
  ⟨rfl, rfl⟩

/-- C10 (amended): `enhance_report_with_career_insights` returns its
input unchanged whenever the insights are absent/empty or the dictionary
has no `"report"` key; otherwise, provided the `"report"` value is a
mapping and any existing `"career_analysis"` value in it is a mapping,
it writes only `report.career_analysis.additional_insights` (creating
the `"career_analysis"` mapping if absent) and leaves every other key
and value unchanged (a non-mapping in either position instead raises
`TypeError`). -/
theorem enhance_report_frame (kvs : List (List Char × Json)) (ci : Option (List Char)) :
    (ci = none → enhance_report_with_career_insights kvs ci = .ok (.obj kvs)) ∧
    (ci = some [] → enhance_report_with_career_insights kvs ci = .ok (.obj kvs)) ∧
    (keyLookup reportKey kvs = none →
      enhance_report_with_career_insights kvs ci = .ok (.obj kvs)) ∧
    (∀ ins rkvs, ci = some ins → ins ≠ [] →
      keyLookup reportKey kvs = some (.obj rkvs) →
      (keyLookup careerAnalysisKey rkvs = none ∨
        ∃ c, keyLookup careerAnalysisKey rkvs = some (.obj c)) →
      ∃ rkvs2 ckvs2,
        enhance_report_with_career_insights kvs ci =
          .ok (.obj (keyStore reportKey (.obj rkvs2) kvs)) ∧
        (∀ k, k ≠ reportKey →
          keyLookup k (keyStore reportKey (.obj rkvs2) kvs) = keyLookup k kvs) ∧
        keyLookup reportKey (keyStore reportKey (.obj rkvs2) kvs) = some (.obj rkvs2) ∧
        (∀ k, k ≠ careerAnalysisKey → keyLookup k rkvs2 = keyLookup k rkvs) ∧
        keyLookup careerAnalysisKey rkvs2 = some (.obj ckvs2) ∧
        (∀ k, k ≠ additionalInsightsKey → keyLookup k ckvs2 = keyLookup k (caBase rkvs)) ∧
        keyLookup additionalInsightsKey ckvs2 = some (.str ins)) := by
  refine ⟨?_, ?_, ?_, ?_⟩
  · intro h; subst h; rfl
  · intro h; subst h; rfl
  · intro h
    unfold enhance_report_with_career_insights
    rw [h]
    simp
  · intro ins rkvs hci hne hrep hca
    subst hci
    have hfal : ins.isEmpty = false := by
      cases ins with
      | nil => exact absurd rfl hne
      | cons a t => rfl
    have hsome : (keyLookup reportKey kvs).isNone = false := by rw [hrep]; rfl
    rcases hca with hnone | ⟨c, hc⟩
    · refine ⟨keyStore careerAnalysisKey
        (.obj (keyStore additionalInsightsKey (.str ins) []))
        (rkvs ++ [(careerAnalysisKey, .obj [])]),
        keyStore additionalInsightsKey (.str ins) [], ?_, ?_, ?_, ?_, ?_, ?_, ?_⟩
      · unfold enhance_report_with_career_insights
        rw [hrep]
        have h2 : keyLookup careerAnalysisKey (rkvs ++ [(careerAnalysisKey, .obj [])]) =
            some (.obj []) := by
          rw [keyLookup_append, hnone]
          simp [keyLookup]
        simp [hfal, hnone, h2]
      · intro k hk; exact keyLookup_keyStore_other _ _ _ _ hk
      · exact keyLookup_keyStore_self _ _ _
      · intro k hk
        rw [keyLookup_keyStore_other _ _ _ _ hk, keyLookup_append]
        have hne2 : ¬(careerAnalysisKey = k) := fun hh => hk hh.symm
        have h3 : keyLookup k [(careerAnalysisKey, Json.obj [])] = none := by
          simp [keyLookup, hne2]
        rw [h3]
        cases keyLookup k rkvs <;> rfl
      · exact keyLookup_keyStore_self _ _ _
      · intro k hk
        rw [keyLookup_keyStore_other _ _ _ _ hk]
        unfold caBase
        rw [hnone]
      · exact keyLookup_keyStore_self _ _ _
    · refine ⟨keyStore careerAnalysisKey
        (.obj (keyStore additionalInsightsKey (.str ins) c)) rkvs,
        keyStore additionalInsightsKey (.str ins) c, ?_, ?_, ?_, ?_, ?_, ?_, ?_⟩
      · unfold enhance_report_with_career_insights
        rw [hrep]
        simp [hfal, hc]
      · intro k hk; exact keyLookup_keyStore_other _ _ _ _ hk
      · exact keyLookup_keyStore_self _ _ _
      · intro k hk; exact keyLookup_keyStore_other _ _ _ _ hk
      · exact keyLookup_keyStore_self _ _ _
      · intro k hk
        rw [keyLookup_keyStore_other _ _ _ _ hk]
        unfold caBase
        rw [hc]
      · exact keyLookup_keyStore_self _ _ _

/-- Witness for C10's amended theorem at a concrete report dictionary. -/
theorem enhance_report_frame_witness :
    (enhance_report_with_career_insights [(reportKey, Json.obj [(['s'], Json.int 7)])]
      none = .ok (.obj [(reportKey, Json.obj [(['s'], Json.int 7)])])) ∧
    (∃ rkvs2 ckvs2,
      enhance_report_with_career_insights [(reportKey, Json.obj [(['s'], Json.int 7)])]
          (some "hi".data) =
        .ok (.obj (keyStore reportKey (.obj rkvs2) [(reportKey, Json.obj [(['s'], Json.int 7)])])) ∧
      (∀ k, k ≠ reportKey →
        keyLookup k (keyStore reportKey (.obj rkvs2) [(reportKey, Json.obj [(['s'], Json.int 7)])]) =
          keyLookup k [(reportKey, Json.obj [(['s'], Json.int 7)])]) ∧
      keyLookup reportKey (keyStore reportKey (.obj rkvs2)
        [(reportKey, Json.obj [(['s'], Json.int 7)])]) = some (.obj rkvs2) ∧
      (∀ k, k ≠ careerAnalysisKey → keyLookup k rkvs2 = keyLookup k [(['s'], Json.int 7)]) ∧
      keyLookup careerAnalysisKey rkvs2 = some (.obj ckvs2) ∧
      (∀ k, k ≠ additionalInsightsKey →
        keyLookup k ckvs2 = keyLookup k (caBase [(['s'], Json.int 7)])) ∧
      keyLookup additionalInsightsKey ckvs2 = some (.str "hi".data)) :=
  ⟨(enhance_report_frame [(reportKey, Json.obj [(['s'], Json.int 7)])] none).1 rfl,
   (enhance_report_frame [(reportKey, Json.obj [(['s'], Json.int 7)])] (some "hi".data)).2.2.2
     "hi".data [(['s'], Json.int 7)] rfl (by decide) rfl (Or.inl rfl)⟩

/-! ## Whitespace-stripping lemmas for Claim C4

`extract_json_from_llm_response` searches `response.rstrip()` for the
closing fence / closing brace; since neither pattern contains
whitespace, the `rstrip` is irrelevant to the search result. -/

theorem trimRightWs_decomp (s : List Char) :
    ∃ w, s = trimRightWs s ++ w ∧ ∀ c ∈ w, isPyWs c = true := by
  refine ⟨(s.reverse.takeWhile isPyWs).reverse, ?_, ?_⟩
  · unfold trimRightWs
    conv_lhs => rw [← s.reverse_reverse, ← List.takeWhile_append_dropWhile (p := isPyWs)
      (l := s.reverse)]
    rw [List.reverse_append]
  · intro c hc
    rw [List.mem_reverse] at hc
    exact List.mem_takeWhile_imp hc

theorem startsWithL_append_allWs (pat x w : List Char)
    (hp : ∀ c ∈ pat, isPyWs c = false) (hw : ∀ c ∈ w, isPyWs c = true) :
    startsWithL pat (x ++ w) = startsWithL pat x := by
  induction pat generalizing x with
  | nil => rfl
  | cons p ps ih =>
    cases x with
    | nil =>
      cases w with
      | nil => rfl
      | cons c cs =>
        have h1 : isPyWs p = false := hp p (by simp)
        have h2 : isPyWs c = true := hw c (by simp)
        have hne : ¬(p = c) := fun hh => by rw [hh, h2] at h1; cases h1
        simp [startsWithL, hne]
    | cons a xs =>
      simp only [List.cons_append, startsWithL, List.append_eq]
      rw [ih xs (fun c hc => hp c (List.mem_cons_of_mem _ hc))]

theorem rfindSubIdx_allWs_none (pat w : List Char) (hp : pat ≠ [])
    (hph : ∀ c ∈ pat, isPyWs c = false) (hw : ∀ c ∈ w, isPyWs c = true) :
    rfindSubIdx pat w = none := by
  induction w with
  | nil => simp [rfindSubIdx, hp]
  | cons c cs ih =>
    unfold rfindSubIdx
    rw [ih (fun x hx => hw x (by simp [hx]))]
    cases pat with
    | nil => exact absurd rfl hp
    | cons p ps =>
      have h1 : isPyWs p = false := hph p (by simp)
      have h2 : isPyWs c = true := hw c (by simp)
      have hne : ¬(p = c) := fun hh => by rw [hh, h2] at h1; cases h1
      simp [startsWithL, hne]

theorem rfindSubIdx_append_allWs (pat t w : List Char) (hp : pat ≠ [])
    (hph : ∀ c ∈ pat, isPyWs c = false) (hw : ∀ c ∈ w, isPyWs c = true) :
    rfindSubIdx pat (t ++ w) = rfindSubIdx pat t := by
  induction t with
  | nil => simpa [rfindSubIdx, hp] using rfindSubIdx_allWs_none pat w hp hph hw
  | cons c cs ih =>
    simp only [List.cons_append, rfindSubIdx, List.append_eq]
    rw [ih]
    cases rfindSubIdx pat cs with
    | some i => rfl
    | none =>
      have hsw := startsWithL_append_allWs pat (c :: cs) w hph hw
      simp only [List.cons_append] at hsw
      simp [hsw]

theorem rfindSubIdx_trimRight (pat s : List Char) (hp : pat ≠ [])
    (hph : ∀ c ∈ pat, isPyWs c = false) :
    rfindSubIdx pat (trimRightWs s) = rfindSubIdx pat s := by
  obtain ⟨w, hsw, hw⟩ := trimRightWs_decomp s
  conv_rhs => rw [hsw]
  rw [rfindSubIdx_append_allWs pat _ w hp hph hw]

theorem rfindCharIdx_eq_rfindSub (c : Char) (s : List Char) :
    rfindCharIdx c s = rfindSubIdx [c] s := by
  induction s with
  | nil => rfl
  | cons x xs ih =>
    unfold rfindCharIdx rfindSubIdx
    rw [ih]
    cases rfindSubIdx [c] xs with
    | some i => rfl
    | none =>
      by_cases h : x = c
      · simp [h, startsWithL]
      · have : ¬(c = x) := fun hh => h hh.symm
        simp [h, startsWithL, this]

theorem rfindCharIdx_trimRight (c : Char) (s : List Char) (hc : isPyWs c = false) :
    rfindCharIdx c (trimRightWs s) = rfindCharIdx c s := by
  rw [rfindCharIdx_eq_rfindSub, rfindCharIdx_eq_rfindSub]
  exact rfindSubIdx_trimRight [c] s (by simp)
    (fun x hx => by rw [List.mem_singleton] at hx; rwa [hx])

/-! ## Claim C4 -/

/-- C4: on input that does not parse directly as JSON, the content
window selected by `extract_json_from_llm_response` is exactly the one
described by the specification: fence-opener (else first `{`) start,
closing-fence (else last `}`) end, with a closing marker occurring
before the window start treated as not found, and the selected substring
trimmed. -/
theorem select_window_matches_spec (s : List Char) (_hnp : jsonParse s = none) :
    exceptToOpt (selectJsonStr s) = selectWindowSpec s := by
  have hts : rfindSubIdx fencePat (trimRightWs s) = rfindSubIdx fencePat s :=
    rfindSubIdx_trimRight fencePat s (by decide) (by decide)
  have htc : rfindCharIdx '\x7d' (trimRightWs s) = rfindCharIdx '\x7d' s :=
    rfindCharIdx_trimRight '\x7d' s (by decide)
  have h7 : fenceOpenPat.length = 7 := rfl
  cases hfo : findSubIdx fenceOpenPat s with
  | some i =>
    cases hre : rfindSubIdx fencePat s with
    | some e =>
      by_cases hcmp : e < i + 7
      · have hle : ¬(i + 7 ≤ e) := by omega
        cases hrc : rfindCharIdx '\x7d' s <;>
          simp [selectJsonStr, selectWindowSpec, selectEnd, braceEnd, exceptToOpt,
            hfo, hre, hrc, hts, htc, h7, hcmp, hle]
      · have hle : i + 7 ≤ e := by omega
        simp [selectJsonStr, selectWindowSpec, selectEnd, braceEnd, exceptToOpt,
          hfo, hre, hts, htc, h7, hcmp, hle]
    | none =>
      cases hrc : rfindCharIdx '\x7d' s <;>
        simp [selectJsonStr, selectWindowSpec, selectEnd, braceEnd, exceptToOpt,
          hfo, hre, hrc, hts, htc, h7]
  | none =>
    cases hfb : findCharIdx '\x7b' s with
    | some b =>
      cases hre : rfindSubIdx fencePat s with
      | some e =>
        by_cases hcmp : e < b
        · have hle : ¬(b ≤ e) := by omega
          cases hrc : rfindCharIdx '\x7d' s <;>
            simp [selectJsonStr, selectWindowSpec, selectEnd, braceEnd, exceptToOpt,
              hfo, hfb, hre, hrc, hts, htc, hcmp, hle]
        · have hle : b ≤ e := by omega
          simp [selectJsonStr, selectWindowSpec, selectEnd, braceEnd, exceptToOpt,
            hfo, hfb, hre, hts, htc, hcmp, hle]
      | none =>
        cases hrc : rfindCharIdx '\x7d' s <;>
          simp [selectJsonStr, selectWindowSpec, selectEnd, braceEnd, exceptToOpt,
            hfo, hfb, hre, hrc, hts, htc]
    | none =>
      simp [selectJsonStr, selectWindowSpec, selectEnd, braceEnd, exceptToOpt, hfo, hfb]

/-- Witness for C4 at a concrete input whose only ```` ``` ```` marker
lies before the window start (a truncated fenced block), exercising the
brace-based fallback. -/
theorem select_window_matches_spec_witness :
    exceptToOpt (selectJsonStr "```json\n\x7b\x22a\x22: 1\x7d".data) =
      selectWindowSpec "```json\n\x7b\x22a\x22: 1\x7d".data ∧
    selectWindowSpec "```json\n\x7b\x22a\x22: 1\x7d".data =
      some "\x7b\x22a\x22: 1\x7d".data :=
  ⟨select_window_matches_spec "```json\n\x7b\x22a\x22: 1\x7d".data rfl, rfl⟩

/-! ## Round-trip infrastructure: numbers -/

theorem isDigitChar_digitChar : ∀ d, d < 10 → isDigitChar (digitChar d) = true := by decide

theorem digitChar_val : ∀ d, d < 10 → (digitChar d).toNat - 48 = d := by decide

theorem digitChar_ne_zero : ∀ d, d < 10 → d ≠ 0 → ¬(digitChar d = '0') := by decide

theorem natToDecAux_ne_nil (f n : Nat) : natToDecAux (f + 1) n ≠ [] := by
  unfold natToDecAux
  by_cases h : n < 10
  · simp [h]
  · simp [h]

theorem natToDecAux_digits : ∀ f n, ∀ c ∈ natToDecAux f n, isDigitChar c = true := by
  intro f
  induction f with
  | zero => intro n c hc; simp [natToDecAux] at hc
  | succ f ih =>
    intro n c hc
    unfold natToDecAux at hc
    by_cases h : n < 10
    · rw [if_pos h] at hc
      rw [List.mem_singleton] at hc
      rw [hc]
      exact isDigitChar_digitChar n h
    · rw [if_neg h] at hc
      rw [List.mem_append] at hc
      rcases hc with hc | hc
      · exact ih _ c hc
      · rw [List.mem_singleton] at hc
        rw [hc]
        exact isDigitChar_digitChar _ (Nat.mod_lt n (by omega))

theorem natToDecAux_head_shape (f n : Nat) :
    ∃ d t, d < 10 ∧ natToDecAux (f + 1) n = digitChar d :: t := by
  induction f generalizing n with
  | zero =>
    unfold natToDecAux
    by_cases h : n < 10
    · exact ⟨n, [], h, by rw [if_pos h]⟩
    · refine ⟨n % 10, [], Nat.mod_lt n (by omega), ?_⟩
      rw [if_neg h]
      rfl
  | succ f ih =>
    unfold natToDecAux
    by_cases h : n < 10
    · exact ⟨n, [], h, by rw [if_pos h]⟩
    · obtain ⟨d, t, hd, ht⟩ := ih (n / 10)
      refine ⟨d, t ++ [digitChar (n % 10)], hd, ?_⟩
      rw [if_neg h, ht]
      rfl

theorem natToDecAux_head_ne_zero : ∀ f n, 1 ≤ n → n < f + 1 →
    ∀ c t, natToDecAux (f + 1) n = c :: t → ¬(c = '0') := by
  intro f
  induction f with
  | zero =>
    intro n h1 h2
    omega
  | succ f ih =>
    intro n h1 h2 c t hct
    unfold natToDecAux at hct
    by_cases h : n < 10
    · rw [if_pos h] at hct
      cases hct
      exact digitChar_ne_zero n h (by omega)
    · rw [if_neg h] at hct
      obtain ⟨d, t2, hd, ht2⟩ := natToDecAux_head_shape f (n / 10)
      rw [ht2] at hct
      simp only [List.cons_append, List.cons.injEq] at hct
      have := ih (n / 10) (by omega) (by omega) (digitChar d) t2 ht2
      rw [hct.1] at this
      exact this

theorem digitsToNat_append_singleton (a : List Char) (c : Char) :
    digitsToNat (a ++ [c]) = 10 * digitsToNat a + (c.toNat - 48) := by
  unfold digitsToNat
  rw [List.foldl_append]
  rfl

theorem digitsToNat_natToDecAux : ∀ f n, n < f → digitsToNat (natToDecAux f n) = n := by
  intro f
  induction f with
  | zero => intro n h; omega
  | succ f ih =>
    intro n h
    unfold natToDecAux
    by_cases h10 : n < 10
    · rw [if_pos h10]
      show digitsToNat ([] ++ [digitChar n]) = n
      rw [digitsToNat_append_singleton]
      have := digitChar_val n h10
      simp [digitsToNat]
      omega
    · rw [if_neg h10]
      rw [digitsToNat_append_singleton]
      have hrec : digitsToNat (natToDecAux f (n / 10)) = n / 10 := by
        apply ih
        omega
      rw [hrec]
      have := digitChar_val (n % 10) (Nat.mod_lt n (by omega))
      rw [this]
      omega

theorem natToDec_digits (n : Nat) : ∀ c ∈ natToDec n, isDigitChar c = true :=
  natToDecAux_digits (n + 1) n

theorem digitsToNat_natToDec (n : Nat) : digitsToNat (natToDec n) = n :=
  digitsToNat_natToDecAux (n + 1) n (by omega)

theorem stopTok_head_not_digit (rest : List Char) (h : stopTok rest = true) :
    ∀ c, rest.head? = some c → isDigitChar c = false := by
  intro c hc
  cases rest with
  | nil => simp at hc
  | cons x t =>
    simp at hc
    subst hc
    unfold stopTok at h
    simp only [Bool.or_eq_true, decide_eq_true_eq] at h
    obtain (h | h) | h := h <;> subst h <;> rfl

theorem takeWhile_digits_append (a rest : List Char) (ha : ∀ c ∈ a, isDigitChar c = true)
    (hrest : stopTok rest = true) :
    (a ++ rest).takeWhile isDigitChar = a ∧ (a ++ rest).dropWhile isDigitChar = rest := by
  constructor
  · rw [List.takeWhile_append_of_pos ha]
    cases rest with
    | nil => simp
    | cons c t =>
      have := stopTok_head_not_digit (c :: t) hrest c (by simp)
      simp [List.takeWhile_cons, this]
  · rw [List.dropWhile_append_of_pos ha]
    cases rest with
    | nil => simp
    | cons c t =>
      have := stopTok_head_not_digit (c :: t) hrest c (by simp)
      simp [List.dropWhile_cons, this]

theorem stopTok_not_frac (rest : List Char) (h : stopTok rest = true) :
    ∀ c t, rest = c :: t → (c = '.' || c = 'e' || c = 'E') = false := by
  intro c t hct
  subst hct
  unfold stopTok at h
  simp only [Bool.or_eq_true, decide_eq_true_eq] at h
  obtain (h | h) | h := h <;> subst h <;> rfl

theorem parseNatNum_natToDec (m : Nat) (rest : List Char) (hstop : stopTok rest = true) :
    parseNatNum (natToDec m ++ rest) = some (m, rest) := by
  obtain ⟨htake, hdrop⟩ := takeWhile_digits_append (natToDec m) rest (natToDec_digits m) hstop
  unfold parseNatNum
  rw [htake, hdrop]
  by_cases h10 : m < 10
  · have hshape : natToDec m = [digitChar m] := by
      unfold natToDec natToDecAux
      rw [if_pos h10]
    rw [hshape]
    have hval := digitChar_val m h10
    cases rest with
    | nil => simp [hval]
    | cons c t =>
      have hfrac := stopTok_not_frac (c :: t) hstop c t rfl
      simp [hval, hfrac]
  · obtain ⟨d, t2, hd, ht2⟩ := natToDecAux_head_shape m m
    have hshape2 : natToDec m = digitChar d :: t2 := ht2
    have hne0 : ¬(digitChar d = '0') :=
      natToDecAux_head_ne_zero m m (by omega) (by omega) (digitChar d) t2 ht2
    have hds : digitsToNat (natToDec m) = m := digitsToNat_natToDec m
    have ht2ne : t2 ≠ [] := by
      intro hnil
      rw [hnil] at hshape2
      rw [hshape2] at hds
      have hsing : digitsToNat [digitChar d] = (digitChar d).toNat - 48 := by
        simp [digitsToNat]
      rw [hsing] at hds
      have := digitChar_val d hd
      omega
    obtain ⟨b, t3, rfl⟩ : ∃ b t3, t2 = b :: t3 := by
      cases t2 with
      | nil => exact absurd rfl ht2ne
      | cons b t3 => exact ⟨b, t3, rfl⟩
    rw [hshape2] at hds ⊢
    cases rest with
    | nil => simp [hne0, hds]
    | cons c t =>
      have hfrac := stopTok_not_frac (c :: t) hstop c t rfl
      simp [hne0, hfrac, hds]

theorem digitChar_ne_minus : ∀ d, d < 10 → ¬(digitChar d = '-') := by decide

theorem parseIntNum_intToDec (n : Int) (rest : List Char) (hstop : stopTok rest = true) :
    parseIntNum (intToDec n ++ rest) = some (n, rest) := by
  unfold intToDec
  by_cases hneg : n < 0
  · rw [if_pos hneg]
    show parseIntNum ('-' :: (natToDec n.natAbs ++ rest)) = some (n, rest)
    simp only [parseIntNum]
    rw [if_pos trivial]
    rw [parseNatNum_natToDec n.natAbs rest hstop]
    have : -((n.natAbs : Nat) : Int) = n := by omega
    show some (-((n.natAbs : Nat) : Int), rest) = some (n, rest)
    rw [this]
  · rw [if_neg hneg]
    obtain ⟨d, t2, hd, ht2⟩ := natToDecAux_head_shape n.toNat n.toNat
    have hshape : natToDec n.toNat = digitChar d :: t2 := ht2
    rw [hshape]
    show parseIntNum (digitChar d :: (t2 ++ rest)) = some (n, rest)
    simp only [parseIntNum]
    rw [if_neg (digitChar_ne_minus d hd)]
    have hback : digitChar d :: (t2 ++ rest) = natToDec n.toNat ++ rest := by
      rw [hshape]
      rfl
    rw [hback, parseNatNum_natToDec n.toNat rest hstop]
    have : ((n.toNat : Nat) : Int) = n := by omega
    show some (((n.toNat : Nat) : Int), rest) = some (n, rest)
    rw [this]

/-! ## Round-trip infrastructure: strings -/

theorem hexVal_hexDig : ∀ d, d < 16 → hexVal (hexDig d) = some d := by decide

theorem parseStringBody_escSimple (e c : Char) (he : escCharParse e = some c)
    (hne : ¬(e = 'u')) (t : List Char) :
    parseStringBody ('\\' :: e :: t) =
      match parseStringBody t with
      | some (s, r) => some (c :: s, r)
      | none => none := by
  rw [parseStringBody.eq_def]
  dsimp only
  rw [if_neg (by decide : ¬(('\\' : Char) = '"')), if_pos rfl, if_neg hne, he]

theorem parseStringBody_u (x : Nat) (hx : x < 0x20) (t : List Char) :
    parseStringBody ('\\' :: 'u' :: '0' :: '0' :: hexDig (x / 16) :: hexDig (x % 16) :: t) =
      match parseStringBody t with
      | some (s, r) => some (Char.ofNat x :: s, r)
      | none => none := by
  have hvh := hexVal_hexDig (x / 16) (by omega)
  have hvl := hexVal_hexDig (x % 16) (by omega)
  rw [parseStringBody.eq_def]
  dsimp only
  rw [if_neg (by decide : ¬(('\\' : Char) = '"')), if_pos rfl, if_pos rfl]
  rw [show hexVal '0' = some 0 from rfl, hvh, hvl]
  dsimp only
  have hv : ((0 * 16 + 0) * 16 + x / 16) * 16 + x % 16 = x := by omega
  rw [hv]
  have hsur : ¬((decide (55296 <= x) && decide (x < 57344)) = true) := by
    have h1 : ¬(55296 <= x) := by omega
    simp [h1]
  rw [if_neg hsur]

theorem parseStringBody_lit (c : Char) (h1 : ¬(c = '"')) (h2 : ¬(c = '\\'))
    (h3 : ¬(c.toNat < 0x20)) (t : List Char) :
    parseStringBody (c :: t) =
      match parseStringBody t with
      | some (s, r) => some (c :: s, r)
      | none => none := by
  rw [parseStringBody.eq_def]
  dsimp only
  rw [if_neg h1, if_neg h2, if_neg h3]

theorem parseStringBody_escCharSer (c : Char) (t : List Char) :
    parseStringBody (escCharSer c ++ t) =
      match parseStringBody t with
      | some (s, r) => some (c :: s, r)
      | none => none := by
  unfold escCharSer
  by_cases h1 : c = '"'
  · subst h1
    rw [if_pos rfl]
    exact parseStringBody_escSimple '"' '"' rfl (by decide) t
  · rw [if_neg h1]
    by_cases h2 : c = '\\'
    · subst h2
      rw [if_pos rfl]
      exact parseStringBody_escSimple '\\' '\\' rfl (by decide) t
    · rw [if_neg h2]
      by_cases h3 : c = '\n'
      · subst h3
        rw [if_pos rfl]
        exact parseStringBody_escSimple 'n' '\n' rfl (by decide) t
      · rw [if_neg h3]
        by_cases h4 : c = '\t'
        · subst h4
          rw [if_pos rfl]
          exact parseStringBody_escSimple 't' '\t' rfl (by decide) t
        · rw [if_neg h4]
          by_cases h5 : c = '\r'
          · subst h5
            rw [if_pos rfl]
            exact parseStringBody_escSimple 'r' '\r' rfl (by decide) t
          · rw [if_neg h5]
            by_cases h6 : c = '\x08'
            · subst h6
              rw [if_pos rfl]
              exact parseStringBody_escSimple 'b' '\x08' rfl (by decide) t
            · rw [if_neg h6]
              by_cases h7 : c = '\x0c'
              · subst h7
                rw [if_pos rfl]
                exact parseStringBody_escSimple 'f' '\x0c' rfl (by decide) t
              · rw [if_neg h7]
                by_cases h8 : c.toNat < 0x20
                · rw [if_pos h8]
                  show parseStringBody
                    ('\\' :: 'u' :: '0' :: '0' ::
                      hexDig (c.toNat / 16) :: hexDig (c.toNat % 16) :: t) = _
                  rw [parseStringBody_u c.toNat h8 t, Char.ofNat_toNat]
                · rw [if_neg h8]
                  show parseStringBody (c :: t) = _
                  exact parseStringBody_lit c h1 h2 h8 t

theorem parseStringBody_escapeStr (k rest : List Char) :
    parseStringBody (escapeStr k ++ '"' :: rest) = some (k, rest) := by
  induction k with
  | nil =>
    show parseStringBody ('"' :: rest) = some ([], rest)
    rw [parseStringBody.eq_def]
    dsimp only
    rw [if_pos rfl]
  | cons c k' ih =>
    show parseStringBody ((escCharSer c ++ escapeStr k') ++ '"' :: rest) = _
    rw [List.append_assoc, parseStringBody_escCharSer, ih]

/-! ## Round-trip infrastructure: head characters and whitespace -/

theorem digitChar_head_facts : ∀ d, d < 10 →
    ¬(digitChar d = '"') ∧ ¬(digitChar d = '\x7b') ∧ ¬(digitChar d = '[') ∧
    ¬(digitChar d = 'n') ∧ ¬(digitChar d = 't') ∧ ¬(digitChar d = 'f') ∧
    (digitChar d = '-' || isDigitChar (digitChar d)) = true ∧
    isJsonWs (digitChar d) = false ∧ ¬(digitChar d = ']') ∧ ¬(digitChar d = '\x7d') := by
  decide

theorem intToDec_head (n : Int) : ∃ c t, intToDec n = c :: t ∧
    ¬(c = '"') ∧ ¬(c = '\x7b') ∧ ¬(c = '[') ∧ ¬(c = 'n') ∧ ¬(c = 't') ∧ ¬(c = 'f') ∧
    (c = '-' || isDigitChar c) = true ∧ isJsonWs c = false ∧ ¬(c = ']') ∧ ¬(c = '\x7d') := by
  unfold intToDec
  by_cases h : n < 0
  · rw [if_pos h]
    exact ⟨'-', natToDec n.natAbs, rfl, by decide, by decide, by decide, by decide, by decide,
      by decide, by decide, by decide, by decide, by decide⟩
  · rw [if_neg h]
    obtain ⟨d, t, hd, ht⟩ := natToDecAux_head_shape n.toNat n.toNat
    obtain ⟨f1, f2, f3, f4, f5, f6, f7, f8, f9, f10⟩ := digitChar_head_facts d hd
    exact ⟨digitChar d, t, ht, f1, f2, f3, f4, f5, f6, f7, f8, f9, f10⟩

theorem serJson_head (v : Json) : ∃ c t, serJson v = c :: t ∧
    isJsonWs c = false ∧ ¬(c = ']') ∧ ¬(c = '\x7d') := by
  cases v with
  | int n =>
    obtain ⟨c, t, hct, _, _, _, _, _, _, _, f8, f9, f10⟩ := intToDec_head n
    exact ⟨c, t, hct, f8, f9, f10⟩
  | bool b =>
    cases b with
    | true => exact ⟨'t', _, rfl, by decide⟩
    | false => exact ⟨'f', _, rfl, by decide⟩
  | null => exact ⟨'n', _, rfl, by decide⟩
  | str s => exact ⟨'"', _, rfl, by decide⟩
  | arr xs =>
    cases xs with
    | nil => exact ⟨'[', _, rfl, by decide⟩
    | cons x xs' => exact ⟨'[', _, rfl, by decide⟩
  | obj kvs =>
    cases kvs with
    | nil => exact ⟨'\x7b', _, rfl, by decide⟩
    | cons kv kvs' =>
      obtain ⟨k, v2⟩ := kv
      exact ⟨'\x7b', _, rfl, by decide⟩

theorem skipWs_cons_not (c : Char) (t : List Char) (h : isJsonWs c = false) :
    skipWs (c :: t) = c :: t := by
  unfold skipWs
  rw [h]
  simp

theorem skipWs_serJson_append (v : Json) (t : List Char) :
    skipWs (serJson v ++ t) = serJson v ++ t := by
  obtain ⟨c, t2, hct, hws, _, _⟩ := serJson_head v
  rw [hct, List.cons_append]
  exact skipWs_cons_not c (t2 ++ t) hws

/-! ## Round-trip infrastructure: sizes -/

theorem jsize_pos (v : Json) : 1 ≤ jsize v := by
  cases v <;> simp [jsize]

mutual

theorem jsize_le_serLen : ∀ v, jsize v ≤ (serJson v).length
  | .null => by simp [jsize, serJson]
  | .bool b => by cases b <;> simp [jsize, serJson]
  | .int n => by
    have h := natToDecAux_ne_nil
    simp only [jsize, serJson]
    unfold intToDec
    by_cases hn : n < 0
    · rw [if_pos hn]
      simp
    · rw [if_neg hn]
      have := natToDecAux_ne_nil n.toNat n.toNat
      have hlen : 1 ≤ (natToDec n.toNat).length := by
        cases hh : natToDec n.toNat with
        | nil => exact absurd hh this
        | cons a b => simp
      exact hlen
  | .str s => by simp [jsize, serJson]
  | .arr [] => by simp [jsize, jsizeArr, serJson]
  | .arr (x :: xs) => by
    have h1 := jsize_le_serLen x
    have h2 := jsizeArr_le_serLen xs
    simp only [jsize, jsizeArr, serJson, List.length_cons, List.length_append,
      List.length_singleton]
    omega
  | .obj [] => by simp [jsize, jsizeObj, serJson]
  | .obj ((k, v) :: kvs) => by
    have h1 := jsize_le_serLen v
    have h2 := jsizeObj_le_serLen kvs
    simp only [jsize, jsizeObj, serJson, List.length_cons, List.length_append,
      List.length_singleton]
    omega

theorem jsizeArr_le_serLen : ∀ xs, jsizeArr xs ≤ (serArrTail xs).length
  | [] => by simp [jsizeArr, serArrTail]
  | x :: xs => by
    have h1 := jsize_le_serLen x
    have h2 := jsizeArr_le_serLen xs
    simp only [jsizeArr, serArrTail, List.length_cons, List.length_append]
    omega

theorem jsizeObj_le_serLen : ∀ kvs, jsizeObj kvs ≤ (serObjTail kvs).length
  | [] => by simp [jsizeObj, serObjTail]
  | (k, v) :: kvs => by
    have h1 := jsize_le_serLen v
    have h2 := jsizeObj_le_serLen kvs
    simp only [jsizeObj, serObjTail, List.length_cons, List.length_append,
      List.length_singleton]
    omega

end

theorem jsize_mem_le_jsizeArr (z : Json) (ys : List Json) (h : z ∈ ys) :
    jsize z < jsizeArr ys := by
  induction ys with
  | nil => simp at h
  | cons y t ih =>
    rcases List.mem_cons.mp h with h | h
    · subst h
      simp [jsizeArr]
      omega
    · have := ih h
      simp [jsizeArr]
      have := jsize_pos y
      omega

theorem jsize_mem_le_jsizeObj (k : List Char) (z : Json) (kvs : List (List Char × Json))
    (h : (k, z) ∈ kvs) : jsize z < jsizeObj kvs := by
  induction kvs with
  | nil => simp at h
  | cons kv t ih =>
    obtain ⟨k2, v2⟩ := kv
    rcases List.mem_cons.mp h with h | h
    · rw [Prod.mk.injEq] at h
      rw [← h.2]
      simp [jsizeObj]
      omega
    · have := ih h
      simp [jsizeObj]
      have := jsize_pos v2
      omega

/-! ## Round-trip: the parser inverts the serializer -/

theorem skipWs_cons_ws (c : Char) (t : List Char) (h : isJsonWs c = true) :
    skipWs (c :: t) = skipWs t := by
  conv_lhs => rw [skipWs.eq_def]
  dsimp only
  rw [h]
  simp

theorem parseArrItems_ser (f : Nat)
    (ihf : ∀ v rest, jsize v ≤ f → stopTok rest = true →
      parseValue f (serJson v ++ rest) = some (v, rest)) :
    ∀ t y g rest, jsizeArr (y :: t) ≤ g → (∀ z ∈ y :: t, jsize z ≤ f) →
      stopTok rest = true →
      parseArrItems (parseValue f) g (serJson y ++ (serArrTail t ++ (']' :: rest))) =
        some (y :: t, rest) := by
  intro t
  induction t with
  | nil =>
    intro y g rest hg hz hstop
    have hy : jsize y ≤ f := hz y (by simp)
    obtain ⟨g2, rfl⟩ : ∃ g2, g = g2 + 1 := by
      have := jsize_pos y
      simp [jsizeArr] at hg
      exact ⟨g - 1, by omega⟩
    rw [show serArrTail ([] : List Json) ++ (']' :: rest) = ']' :: rest from rfl]
    rw [parseArrItems.eq_def]
    dsimp only
    rw [ihf y (']' :: rest) hy rfl]
    dsimp only
    rw [skipWs_cons_not ']' rest (by decide)]
    dsimp only
    rw [if_neg (by decide : ¬((']' : Char) = ',')), if_pos rfl]
  | cons z t2 ihl =>
    intro y g rest hg hz hstop
    have hy : jsize y ≤ f := hz y (by simp)
    obtain ⟨g2, rfl⟩ : ∃ g2, g = g2 + 1 := by
      have := jsize_pos y
      simp [jsizeArr] at hg
      exact ⟨g - 1, by omega⟩
    have hshape : serArrTail (z :: t2) ++ (']' :: rest) =
        ',' :: ' ' :: (serJson z ++ (serArrTail t2 ++ (']' :: rest))) := by
      show (',' :: ' ' :: (serJson z ++ serArrTail t2)) ++ (']' :: rest) = _
      simp [List.append_assoc]
    rw [hshape]
    rw [parseArrItems.eq_def]
    dsimp only
    rw [ihf y (',' :: ' ' :: (serJson z ++ (serArrTail t2 ++ (']' :: rest)))) hy rfl]
    dsimp only
    rw [skipWs_cons_not ',' _ (by decide)]
    dsimp only
    rw [if_pos rfl]
    rw [skipWs_cons_ws ' ' _ (by decide), skipWs_serJson_append]
    rw [ihl z g2 rest (by simp [jsizeArr] at hg ⊢; have := jsize_pos y; omega)
      (fun w hw => hz w (List.mem_cons_of_mem _ hw)) hstop]

theorem parseObjItems_ser (f : Nat)
    (ihf : ∀ v rest, jsize v ≤ f → stopTok rest = true →
      parseValue f (serJson v ++ rest) = some (v, rest)) :
    ∀ t k v g rest, jsizeObj ((k, v) :: t) ≤ g → (∀ p ∈ (k, v) :: t, jsize p.2 ≤ f) →
      stopTok rest = true →
      parseObjItems (parseValue f) g
        ('"' :: (escapeStr k ++ ('"' :: ':' :: ' ' ::
          (serJson v ++ (serObjTail t ++ ('\x7d' :: rest)))))) =
        some ((k, v) :: t, rest) := by
  intro t
  induction t with
  | nil =>
    intro k v g rest hg hz hstop
    have hv : jsize v ≤ f := hz (k, v) (by simp)
    obtain ⟨g2, rfl⟩ : ∃ g2, g = g2 + 1 := by
      have := jsize_pos v
      simp [jsizeObj] at hg
      exact ⟨g - 1, by omega⟩
    rw [parseObjItems.eq_def]
    dsimp only
    rw [if_pos rfl]
    rw [parseStringBody_escapeStr k (':' :: ' ' ::
      (serJson v ++ (serObjTail [] ++ ('\x7d' :: rest))))]
    dsimp only
    rw [skipWs_cons_not ':' _ (by decide)]
    dsimp only
    rw [if_pos rfl]
    rw [skipWs_cons_ws ' ' _ (by decide), skipWs_serJson_append]
    rw [show serObjTail ([] : List (List Char × Json)) ++ ('\x7d' :: rest) =
      '\x7d' :: rest from rfl]
    rw [ihf v ('\x7d' :: rest) hv rfl]
    dsimp only
    rw [skipWs_cons_not '\x7d' rest (by decide)]
    dsimp only
    rw [if_neg (by decide : ¬(('\x7d' : Char) = ',')), if_pos rfl]
  | cons p t2 ihl =>
    obtain ⟨k2, v2⟩ := p
    intro k v g rest hg hz hstop
    have hv : jsize v ≤ f := hz (k, v) (by simp)
    obtain ⟨g2, rfl⟩ : ∃ g2, g = g2 + 1 := by
      have := jsize_pos v
      simp [jsizeObj] at hg
      exact ⟨g - 1, by omega⟩
    have hshape : serObjTail ((k2, v2) :: t2) ++ ('\x7d' :: rest) =
        ',' :: ' ' :: ('"' :: (escapeStr k2 ++ ('"' :: ':' :: ' ' ::
          (serJson v2 ++ (serObjTail t2 ++ ('\x7d' :: rest)))))) := by
      show (',' :: ' ' :: (('"' :: escapeStr k2 ++ ['"', ':', ' ']) ++
        serJson v2 ++ serObjTail t2)) ++ ('\x7d' :: rest) = _
      simp [List.append_assoc]
    rw [parseObjItems.eq_def]
    dsimp only
    rw [if_pos rfl]
    rw [parseStringBody_escapeStr k (':' :: ' ' ::
      (serJson v ++ (serObjTail ((k2, v2) :: t2) ++ ('\x7d' :: rest))))]
    dsimp only
    rw [skipWs_cons_not ':' _ (by decide)]
    dsimp only
    rw [if_pos rfl]
    rw [skipWs_cons_ws ' ' _ (by decide), skipWs_serJson_append]
    rw [hshape]
    rw [ihf v (',' :: ' ' :: ('"' :: (escapeStr k2 ++ ('"' :: ':' :: ' ' ::
      (serJson v2 ++ (serObjTail t2 ++ ('\x7d' :: rest))))))) hv rfl]
    dsimp only
    rw [skipWs_cons_not ',' _ (by decide)]
    dsimp only
    rw [if_pos rfl]
    rw [skipWs_cons_ws ' ' _ (by decide), skipWs_cons_not '"' _ (by decide)]
    rw [ihl k2 v2 g2 rest (by simp [jsizeObj] at hg ⊢; have := jsize_pos v; omega)
      (fun w hw => hz w (List.mem_cons_of_mem _ hw)) hstop]

set_option maxHeartbeats 2000000 in
theorem parseValue_serJson : ∀ fuel v rest, jsize v ≤ fuel → stopTok rest = true →
    parseValue fuel (serJson v ++ rest) = some (v, rest) := by
  intro fuel
  induction fuel with
  | zero =>
    intro v rest h _
    have := jsize_pos v
    omega
  | succ f ih =>
    intro v rest hsz hstop
    cases v with
    | null => rfl
    | bool b => cases b <;> rfl
    | int n =>
      obtain ⟨c, t0, hct, f1, f2, f3, f4, f5, f6, f7, _, _, _⟩ := intToDec_head n
      have hshape : serJson (.int n) ++ rest = c :: (t0 ++ rest) := by
        show intToDec n ++ rest = _
        rw [hct]
        rfl
      rw [hshape, parseValue.eq_def]
      dsimp only
      rw [if_neg f1, if_neg f2, if_neg f3, if_neg f4, if_neg f5, if_neg f6, if_pos f7]
      have hback : c :: (t0 ++ rest) = intToDec n ++ rest := by
        rw [hct]
        rfl
      rw [hback, parseIntNum_intToDec n rest hstop]
    | str s =>
      have hshape : serJson (.str s) ++ rest = '"' :: (escapeStr s ++ ('"' :: rest)) := by
        show ('"' :: escapeStr s ++ ['"']) ++ rest = _
        simp [List.append_assoc]
      rw [hshape, parseValue.eq_def]
      dsimp only
      rw [if_pos rfl, parseStringBody_escapeStr]
    | arr xs =>
      cases xs with
      | nil => rfl
      | cons x xs' =>
        have hshape : serJson (.arr (x :: xs')) ++ rest =
            '[' :: (serJson x ++ (serArrTail xs' ++ (']' :: rest))) := by
          show ('[' :: (serJson x ++ serArrTail xs') ++ [']']) ++ rest = _
          simp [List.append_assoc]
        rw [hshape, parseValue.eq_def]
        dsimp only
        rw [if_neg (by decide : ¬(('[' : Char) = '"')),
          if_neg (by decide : ¬(('[' : Char) = '\x7b')), if_pos rfl]
        rw [skipWs_serJson_append]
        obtain ⟨c0, t0, hct, hws0, hbr1, hbr2⟩ := serJson_head x
        have hshape2 : serJson x ++ (serArrTail xs' ++ (']' :: rest)) =
            c0 :: (t0 ++ (serArrTail xs' ++ (']' :: rest))) := by
          rw [hct]
          rfl
        rw [hshape2]
        dsimp only
        rw [if_neg hbr1, ← hshape2]
        have hg : jsizeArr (x :: xs') ≤ f := by
          simp [jsize] at hsz
          omega
        have hz : ∀ z ∈ x :: xs', jsize z ≤ f := by
          intro z hzm
          have := jsize_mem_le_jsizeArr z (x :: xs') hzm
          omega
        rw [parseArrItems_ser f ih xs' x f rest hg hz hstop]
    | obj kvs =>
      cases kvs with
      | nil => rfl
      | cons kv kvs' =>
        obtain ⟨k, v⟩ := kv
        have hshape : serJson (.obj ((k, v) :: kvs')) ++ rest =
            '\x7b' :: ('"' :: (escapeStr k ++ ('"' :: ':' :: ' ' ::
              (serJson v ++ (serObjTail kvs' ++ ('\x7d' :: rest)))))) := by
          show ('\x7b' :: (('"' :: escapeStr k ++ ['"', ':', ' ']) ++
            serJson v ++ serObjTail kvs') ++ ['\x7d']) ++ rest = _
          simp [List.append_assoc]
        rw [hshape, parseValue.eq_def]
        dsimp only
        rw [if_neg (by decide : ¬(('\x7b' : Char) = '"')), if_pos rfl]
        rw [skipWs_cons_not '"' _ (by decide)]
        dsimp only
        rw [if_neg (by decide : ¬(('"' : Char) = '\x7d'))]
        have hg : jsizeObj ((k, v) :: kvs') ≤ f := by
          simp [jsize] at hsz
          omega
        have hz : ∀ p ∈ (k, v) :: kvs', jsize p.2 ≤ f := by
          intro p hpm
          obtain ⟨k2, v2⟩ := p
          have := jsize_mem_le_jsizeObj k2 v2 ((k, v) :: kvs') hpm
          simp at this ⊢
          omega
        rw [parseObjItems_ser f ih kvs' k v f rest hg hz hstop]

/-- The parser inverts the serializer: `json.loads(json.dumps(v))`
recovers `v` for every document in the model. -/
theorem jsonParse_serJson (v : Json) : jsonParse (serJson v) = some v := by
  unfold jsonParse
  have h1 : skipWs (serJson v) = serJson v := by
    have := skipWs_serJson_append v []
    simpa using this
  rw [h1]
  have h2 := parseValue_serJson ((serJson v).length + 1) v []
    (le_trans (jsize_le_serLen v) (by omega)) rfl
  rw [List.append_nil] at h2
  rw [h2]
  rfl

/-! ## Fence-wrapping lemmas for Claim C3 -/

theorem take_length_add (l1 l2 : List Char) (n : Nat) :
    (l1 ++ l2).take (l1.length + n) = l1 ++ l2.take n := by
  induction l1 with
  | nil => simp
  | cons a t ih =>
    simp only [List.cons_append, List.length_cons]
    rw [show t.length + 1 + n = (t.length + n) + 1 from by omega]
    rw [List.take_succ_cons, ih]

theorem findSubIdx_boundary (p1 T : List Char) (pc : Char) (ps : List Char)
    (hno : pc ∉ p1) (hsw : startsWithL (pc :: ps) T = true) :
    findSubIdx (pc :: ps) (p1 ++ T) = some p1.length := by
  induction p1 with
  | nil =>
    cases T with
    | nil => simp [startsWithL] at hsw
    | cons c cs => simp [findSubIdx, hsw]
  | cons a as ih =>
    have hne : ¬(pc = a) := by
      intro hh
      exact hno (hh ▸ List.mem_cons_self a as)
    have hsw2 : startsWithL (pc :: ps) (a :: (as ++ T)) = false := by
      simp [startsWithL, hne]
    simp only [List.cons_append, findSubIdx, hsw2, Bool.false_eq_true, if_false,
      List.append_eq]
    rw [ih (fun hm => hno (List.mem_cons_of_mem _ hm))]
    simp

theorem rfindSubIdx_tick_none (B : List Char) (hB : '`' ∉ B) :
    rfindSubIdx ['`', '`', '`'] B = none := by
  induction B with
  | nil => rfl
  | cons c cs ih =>
    have hne : ¬(('`' : Char) = c) := by
      intro hh
      exact hB (hh ▸ List.mem_cons_self c cs)
    have ihc := ih (fun hm => hB (List.mem_cons_of_mem _ hm))
    simp only [rfindSubIdx, ihc]
    simp [startsWithL, hne]

theorem startsWithL_tick_false (ps B : List Char) (hB : '`' ∉ B) :
    startsWithL ('`' :: ps) B = false := by
  cases B with
  | nil => rfl
  | cons c cs =>
    have hne : ¬(('`' : Char) = c) := by
      intro hh
      exact hB (hh ▸ List.mem_cons_self c cs)
    simp [startsWithL, hne]

theorem rfindSubIdx_tick_one (B : List Char) (hB : '`' ∉ B) :
    rfindSubIdx ['`', '`', '`'] ('`' :: B) = none := by
  have h0 : rfindSubIdx ['`', '`', '`'] B = none := rfindSubIdx_tick_none B hB
  have hsw : startsWithL ['`', '`'] B = false := startsWithL_tick_false _ _ hB
  rw [rfindSubIdx, h0]
  simp [startsWithL, hsw]

theorem rfindSubIdx_tick_two (B : List Char) (hB : '`' ∉ B) :
    rfindSubIdx ['`', '`', '`'] ('`' :: '`' :: B) = none := by
  have h0 : rfindSubIdx ['`', '`', '`'] ('`' :: B) = none := rfindSubIdx_tick_one B hB
  have hsw : startsWithL ['`'] B = false := startsWithL_tick_false _ _ hB
  rw [rfindSubIdx, h0]
  simp [startsWithL, hsw]

theorem rfindSubIdx_tick_main (A B : List Char) (hB : '`' ∉ B) :
    rfindSubIdx ['`', '`', '`'] (A ++ ('`' :: '`' :: '`' :: B)) = some A.length := by
  induction A with
  | nil =>
    simp only [List.nil_append]
    rw [rfindSubIdx, rfindSubIdx_tick_two B hB]
    simp [startsWithL]
  | cons a as ih =>
    simp only [List.cons_append, rfindSubIdx, List.append_eq, ih]
    simp

theorem serJson_obj_shape (kvs : List (List Char × Json)) :
    ∃ mid, serJson (.obj kvs) = '\x7b' :: mid ++ ['\x7d'] := by
  cases kvs with
  | nil => exact ⟨[], rfl⟩
  | cons kv t =>
    obtain ⟨k, v⟩ := kv
    exact ⟨_, rfl⟩

theorem trimRightWs_obj_newline (j : List Char) (hj : ∃ mid, j = '\x7b' :: mid ++ ['\x7d']) :
    trimRightWs (j ++ ['\n']) = j := by
  obtain ⟨mid, rfl⟩ := hj
  unfold trimRightWs
  simp only [List.cons_append, List.reverse_append, List.reverse_cons, List.reverse_nil,
    List.nil_append, List.append_assoc, List.singleton_append]
  rw [List.dropWhile_cons_of_pos (by decide : isPyWs '\n' = true)]
  rw [List.dropWhile_cons_of_neg (by decide : ¬(isPyWs '\x7d' = true))]
  simp

theorem stripWs_wrap (j : List Char) (hj : ∃ mid, j = '\x7b' :: mid ++ ['\x7d']) :
    stripWs ('\n' :: (j ++ ['\n'])) = j := by
  have h1 : trimLeftWs ('\n' :: (j ++ ['\n'])) = j ++ ['\n'] := by
    obtain ⟨mid, rfl⟩ := hj
    unfold trimLeftWs
    rw [List.dropWhile_cons_of_pos (by decide : isPyWs '\n' = true)]
    simp only [List.cons_append]
    rw [List.dropWhile_cons_of_neg (by decide : ¬(isPyWs '\x7b' = true))]
  unfold stripWs
  rw [h1]
  exact trimRightWs_obj_newline j hj

theorem mem_trimRightWs (c : Char) (s : List Char) (h : c ∈ trimRightWs s) : c ∈ s := by
  unfold trimRightWs at h
  rw [List.mem_reverse] at h
  have hmem := (List.dropWhile_sublist (p := isPyWs) (l := s.reverse)).subset h
  rwa [List.mem_reverse] at hmem

/-! ## Claim C3

The round trip fails in general: surrounding prose containing a stray
```` ``` ```` marker shifts the window end past the real closing fence,
the stripped window then fails to parse, and the repair passes mutate
the document content (here the bare-value-quoting pass turns the
boolean `true` into the string `"true"`). -/

/-- C3 counterexample: for the mapping `{"a": true}` wrapped in a fence
with prose `"Note:\n"` before and `"\nDone ```"` after, the pipeline
returns `{"a": "true"}` — a document different from the original. -/
theorem extract_round_trip_counterexample :
    extract_json_from_llm_response
      (wrapInFence "Note:\n".data (serJson (.obj [(['a'], .bool true)])) "\nDone ```".data) =
      .ok (.obj [(['a'], .str "true".data)]) ∧
    Json.obj [(['a'], Json.str "true".data)] ≠ Json.obj [(['a'], Json.bool true)] :=
  ⟨rfl, by simp⟩

/-- C3 (amended): for every mapping-typed document `D` and every
surrounding prose containing no backtick character, provided the whole
wrapped response does not itself parse directly as JSON, serializing
`D`, wrapping it in a markdown fence with the prose before and after,
and running `extract_json_from_llm_response` yields a document equal to
`D`. -/
theorem extract_round_trip (kvs : List (List Char × Json)) (p1 p2 : List Char)
    (h1 : '`' ∉ p1) (h2 : '`' ∉ p2)
    (hnp : jsonParse (wrapInFence p1 (serJson (.obj kvs)) p2) = none) :
    extract_json_from_llm_response (wrapInFence p1 (serJson (.obj kvs)) p2) =
      .ok (.obj kvs) := by
  have e1 : ("```json\n".data : List Char) = fenceOpenPat ++ ['\n'] := rfl
  have e2 : ("\n```".data : List Char) = '\n' :: '`' :: '`' :: '`' :: [] := rfl
  have hshape1 : wrapInFence p1 (serJson (.obj kvs)) p2 =
      p1 ++ (fenceOpenPat ++ ('\n' :: (serJson (.obj kvs) ++
        ('\n' :: ('`' :: '`' :: '`' :: p2))))) := by
    unfold wrapInFence
    rw [e1, e2]
    simp [List.append_assoc]
  have hfind : findSubIdx fenceOpenPat (wrapInFence p1 (serJson (.obj kvs)) p2) =
      some p1.length := by
    rw [hshape1]
    exact findSubIdx_boundary p1 _ '`' "``json".data h1
      (startsWithL_append_self fenceOpenPat _)
  have hshapeA : wrapInFence p1 (serJson (.obj kvs)) p2 =
      (p1 ++ ("```json\n".data ++ (serJson (.obj kvs) ++ ['\n']))) ++
        ('`' :: '`' :: '`' :: p2) := by
    rw [hshape1]
    simp [List.append_assoc, fenceOpenPat]
  have hAlen : (p1 ++ ("```json\n".data ++ (serJson (.obj kvs) ++ ['\n']))).length =
      p1.length + (8 + ((serJson (.obj kvs)).length + 1)) := by
    simp [List.length_append]
    omega
  have hrfind : rfindSubIdx fencePat (wrapInFence p1 (serJson (.obj kvs)) p2) =
      some (p1 ++ ("```json\n".data ++ (serJson (.obj kvs) ++ ['\n']))).length := by
    rw [hshapeA]
    exact rfindSubIdx_tick_main _ p2 h2
  have hslice : sliceL (wrapInFence p1 (serJson (.obj kvs)) p2) (p1.length + 7)
      (p1 ++ ("```json\n".data ++ (serJson (.obj kvs) ++ ['\n']))).length =
      '\n' :: (serJson (.obj kvs) ++ ['\n']) := by
    unfold sliceL
    have hshape2 : wrapInFence p1 (serJson (.obj kvs)) p2 =
        (p1 ++ fenceOpenPat) ++ ('\n' :: (serJson (.obj kvs) ++
          ('\n' :: ('`' :: '`' :: '`' :: p2)))) := by
      rw [hshape1]
      simp [List.append_assoc]
    rw [hshape2]
    rw [List.drop_left' (by simp [fenceOpenPat] :
      (p1 ++ fenceOpenPat).length = p1.length + 7)]
    rw [show (p1 ++ ("```json\n".data ++ (serJson (.obj kvs) ++ ['\n']))).length -
      (p1.length + 7) = ((serJson (.obj kvs)).length + 1) + 1 from by rw [hAlen]; omega]
    rw [List.take_succ_cons]
    rw [take_length_add (serJson (.obj kvs)) _ 1]
    rfl
  have hrfind2 : rfindSubIdx fencePat
      (trimRightWs (wrapInFence p1 (serJson (.obj kvs)) p2)) =
      some (p1 ++ ("```json\n".data ++ (serJson (.obj kvs) ++ ['\n']))).length := by
    rw [rfindSubIdx_trimRight fencePat _ (by decide)
      (by intro c hc; fin_cases hc <;> rfl)]
    exact hrfind
  have hsel : selectJsonStr (wrapInFence p1 (serJson (.obj kvs)) p2) =
      .ok (serJson (.obj kvs)) := by
    unfold selectJsonStr
    rw [hfind]
    show selectEnd (wrapInFence p1 (serJson (.obj kvs)) p2) (p1.length + 7) =
      .ok (serJson (.obj kvs))
    unfold selectEnd
    rw [hrfind2]
    show (if (p1 ++ ("```json\n".data ++ (serJson (.obj kvs) ++ ['\n']))).length <
        p1.length + 7 then
          braceEnd (wrapInFence p1 (serJson (.obj kvs)) p2) (p1.length + 7)
        else .ok (stripWs (sliceL (wrapInFence p1 (serJson (.obj kvs)) p2)
          (p1.length + 7)
          (p1 ++ ("```json\n".data ++ (serJson (.obj kvs) ++ ['\n']))).length))) =
      .ok (serJson (.obj kvs))
    rw [if_neg (by rw [hAlen]; omega)]
    rw [hslice, stripWs_wrap _ (serJson_obj_shape kvs)]
  have hparse : jsonParse (serJson (.obj kvs)) = some (.obj kvs) :=
    jsonParse_serJson (.obj kvs)
  have hfix : fix_malformed_json (serJson (.obj kvs)) = .ok (serJson (.obj kvs)) := by
    unfold fix_malformed_json
    rw [hparse]
  have hinner : extractInner (wrapInFence p1 (serJson (.obj kvs)) p2) =
      .ok (.obj kvs) := by
    unfold extractInner
    rw [hsel]
    show (match fix_malformed_json (serJson (.obj kvs)) with
      | .error e => .error e
      | .ok fixedStr =>
        match jsonParse fixedStr with
        | some v => .ok v
        | none => .error (fixErrMsg fixedStr)) = Except.ok (Json.obj kvs)
    rw [hfix]
    show (match jsonParse (serJson (.obj kvs)) with
      | some v => .ok v
      | none => .error (fixErrMsg (serJson (.obj kvs)))) = Except.ok (Json.obj kvs)
    rw [hparse]
  unfold extract_json_from_llm_response
  rw [hnp, hinner]

/-- Witness for C3's amended theorem at a concrete document and prose. -/
theorem extract_round_trip_witness :
    extract_json_from_llm_response
      (wrapInFence "Here is the report:\n".data
        (serJson (.obj [(['a'], .int 1), (['b'], .bool true)])) "\nHope this helps.".data) =
      .ok (.obj [(['a'], .int 1), (['b'], .bool true)]) :=
  extract_round_trip [(['a'], .int 1), (['b'], .bool true)]
    "Here is the report:\n".data "\nHope this helps.".data
    (by decide) (by decide) rfl
